import Mathlib

/-!
# Contour HTTPProxy convergence for the ACME HTTP-01 solver

A shallow embedding of `pkg/issuer/acme/http/contour.go` and
`pkg/issuer/acme/http/contour/contour.go`.

* Go pointers that may be nil are `Option`, Go slices are `List` (a nil slice and an
  empty slice are both `[]`), Go `map[string]string` is its list of entries.  The
  round trip of the codec is stated on the types of `Exact`, where a nil slice or map
  is told apart from an allocated one without elements; encoding gives the same
  generic object on both, and what decodes on the former decodes on the latter.
* A Go result `(v, err)` is `Except Err v`; a nil pointer result with a nil error is
  `Except.ok none`.
* Calls on the dynamic client are recorded in a list of `Call`s next to the store
  state they leave behind.
-/

namespace Contour

/-! ## Kubernetes and Contour object types (the fields this package reads or writes) -/

/-- Type information of an object: `metav1.TypeMeta`. -/
structure TypeMeta where
  Kind : String := ""
  APIVersion : String := ""
deriving DecidableEq, Repr

/-- Ownership back-reference: `metav1.OwnerReference`. -/
structure OwnerReference where
  APIVersion : String := ""
  Kind : String := ""
  Name : String := ""
  UID : String := ""
  Controller : Option Bool := none
  BlockOwnerDeletion : Option Bool := none
deriving DecidableEq, Repr

/-- Object metadata: `metav1.ObjectMeta`. -/
structure ObjectMeta where
  Name : String := ""
  GenerateName : String := ""
  Namespace : String := ""
  UID : String := ""
  ResourceVersion : String := ""
  Labels : List (String × String) := []
  Annotations : List (String × String) := []
  OwnerReferences : List OwnerReference := []
deriving DecidableEq, Repr

/-- Schema coordinates `schema.GroupVersionKind`. -/
structure GroupVersionKind where
  Group : String
  Version : String
  Kind : String
deriving DecidableEq, Repr

/-- Schema coordinates `schema.GroupVersionResource`. -/
structure GroupVersionResource where
  Group : String
  Version : String
  Resource : String
deriving DecidableEq, Repr

/-- TLS settings of a virtual host: `contourv1.TLS`. -/
structure TLS where
  SecretName : String := ""
  Passthrough : Bool := false
deriving DecidableEq, Repr

/-- Virtual host of a proxy: `contourv1.VirtualHost`. -/
structure VirtualHost where
  Fqdn : String := ""
  TLS : Option TLS := none
deriving DecidableEq, Repr

/-- Request match of a route: `contourv1.MatchCondition`. -/
structure MatchCondition where
  Prefix : String := ""
deriving DecidableEq, Repr

/-- Backend of a route: `contourv1.Service`. -/
structure Service where
  Name : String := ""
  Port : Int := 0
  Weight : Int := 0
  Protocol : Option String := none
deriving DecidableEq, Repr

/-- Routing rule: `contourv1.Route`. -/
structure Route where
  Conditions : List MatchCondition := []
  Services : List Service := []
  EnableWebsockets : Bool := false
  PermitInsecure : Bool := false
deriving DecidableEq, Repr

/-- Desired configuration of the child object: `contourv1.HTTPProxySpec`. -/
structure HTTPProxySpec where
  VirtualHost : Option VirtualHost := none
  Routes : List Route := []
  IngressClassName : String := ""
deriving DecidableEq, Repr

/-- Observed status of a proxy: `contourv1.HTTPProxyStatus`. -/
structure HTTPProxyStatus where
  CurrentStatus : String := ""
  Description : String := ""
deriving DecidableEq, Repr

/-- The child object: `contour.HTTPProxy`. -/
structure HTTPProxy where
  TypeMeta : TypeMeta := {}
  ObjectMeta : ObjectMeta := {}
  Spec : HTTPProxySpec := {}
  Status : HTTPProxyStatus := {}
deriving DecidableEq, Repr

/-- Spec of the parent request: `cmacme.ChallengeSpec`. -/
structure ChallengeSpec where
  URL : String := ""
  AuthorizationURL : String := ""
  DNSName : String := ""
  Wildcard : Bool := false
  Token : String := ""
  Key : String := ""
deriving DecidableEq, Repr

/-- The parent request: `cmacme.Challenge`. -/
structure Challenge where
  TypeMeta : TypeMeta := {}
  ObjectMeta : ObjectMeta := {}
  Spec : ChallengeSpec := {}
deriving DecidableEq, Repr

/-- Declarations of package `http` that live in other files of the repository and
are used here as given: the correlation label function, the kind of the parent
request and the port the solver pod listens on. -/
structure Deps where
  podLabels : Challenge → List (String × String)
  challengeGvk : GroupVersionKind
  acmeSolverListenPort : Int

/-! ## Desired-state builder -/

/-- The Go format `"/.well-known/acme-challenge/%s"` applied to one string. -/
def challengePath (token : String) : String :=
  "/.well-known/acme-challenge/" ++ token

/-- Embedding of `createHTTPProxySpec`. -/
def createHTTPProxySpec (D : Deps) (ch : Challenge) (svcName : String) : HTTPProxySpec :=
  { VirtualHost := some { Fqdn := ch.Spec.DNSName },
    Routes := [
      { Conditions := [ { Prefix := challengePath ch.Spec.Token } ],
        Services := [ { Name := svcName, Port := D.acmeSolverListenPort } ],
        PermitInsecure := true } ] }

/-! ## Errors -/

/-- The errors the package returns: an error handed back by the lister or the dynamic
client, an error of the unstructured converter, and the error built by
`fmt.Errorf("multiple HTTPProxies found")`. -/
inductive Err where
  | store (reason : String)
  | conversion (reason : String)
  | multipleFound
deriving DecidableEq, Repr

/-! ## Generic objects and the unstructured converter

`runtime.DefaultUnstructuredConverter` belongs to `k8s.io/apimachinery`.  It is
embedded as the field-by-field mapping given by the JSON tags of the object types:
a field tagged `omitempty` is left out when it holds its zero value, and a key that
is missing (or null) decodes to the zero value. -/

/-- Content of a generic object: the values a `map[string]interface{}` holds. -/
inductive Value where
  | null
  | bool (b : Bool)
  | int (n : Int)
  | str (s : String)
  | arr (xs : List Value)
  | obj (kvs : List (String × Value))
deriving Repr

/-- A generic object: `unstructured.Unstructured`. -/
structure Unstructured where
  Object : List (String × Value)
deriving Repr

/-- Keeps the fields of a field table that have a value. -/
def emit : List (String × Option Value) → List (String × Value)
  | [] => []
  | (k, some v) :: t => (k, v) :: emit t
  | (_, none) :: t => emit t

/-- Applies a fallible function to every element, left to right. -/
def traverse {α β : Type} (f : α → Except Err β) : List α → Except Err (List β)
  | [] => .ok []
  | a :: as =>
    match f a with
    | .error e => .error e
    | .ok b =>
      match traverse f as with
      | .error e => .error e
      | .ok bs => .ok (b :: bs)

def omitStr (s : String) : Option Value := if s = "" then none else some (.str s)
def omitBool (b : Bool) : Option Value := if b then some (.bool true) else none
def omitInt (n : Int) : Option Value := if n = 0 then none else some (.int n)
def omitList : List Value → Option Value
  | [] => none
  | x :: xs => some (.arr (x :: xs))
def omitMap : List (String × String) → Option Value
  | [] => none
  | e :: m => some (.obj ((e :: m).map fun kv => (kv.1, Value.str kv.2)))

def decStr : Option Value → Except Err String
  | none => .ok ""
  | some .null => .ok ""
  | some (.str s) => .ok s
  | some _ => .error (.conversion "expected string")

def decBool : Option Value → Except Err Bool
  | none => .ok false
  | some .null => .ok false
  | some (.bool b) => .ok b
  | some _ => .error (.conversion "expected bool")

def decInt : Option Value → Except Err Int
  | none => .ok 0
  | some .null => .ok 0
  | some (.int n) => .ok n
  | some _ => .error (.conversion "expected integer")

def decList {α : Type} (f : Value → Except Err α) : Option Value → Except Err (List α)
  | none => .ok []
  | some .null => .ok []
  | some (.arr xs) => traverse f xs
  | some _ => .error (.conversion "expected array")

def decPtr {α : Type} (f : Value → Except Err α) : Option Value → Except Err (Option α)
  | none => .ok none
  | some .null => .ok none
  | some v => (f v).map some

def decStruct {α : Type} (f : List (String × Value) → Except Err α) :
    Option Value → Except Err α
  | none => f []
  | some .null => f []
  | some (.obj kvs) => f kvs
  | some _ => .error (.conversion "expected object")

def decEntry (kv : String × Value) : Except Err (String × String) :=
  match kv.2 with
  | .str s => .ok (kv.1, s)
  | _ => .error (.conversion "expected string")

def decMap : Option Value → Except Err (List (String × String))
  | none => .ok []
  | some .null => .ok []
  | some (.obj kvs) => traverse decEntry kvs
  | some _ => .error (.conversion "expected object")

def decObj {α : Type} (f : List (String × Value) → Except Err α) : Value → Except Err α
  | .obj kvs => f kvs
  | _ => .error (.conversion "expected object")

/-! ### Object types, field by field -/

def encOwnerReference (x : OwnerReference) : Value :=
  .obj (emit [("apiVersion", some (.str x.APIVersion)), ("kind", some (.str x.Kind)),
    ("name", some (.str x.Name)), ("uid", some (.str x.UID)),
    ("controller", x.Controller.map Value.bool),
    ("blockOwnerDeletion", x.BlockOwnerDeletion.map Value.bool)])

def decOwnerReferenceFields (m : List (String × Value)) : Except Err OwnerReference := do
  let a ← decStr (m.lookup "apiVersion")
  let k ← decStr (m.lookup "kind")
  let n ← decStr (m.lookup "name")
  let u ← decStr (m.lookup "uid")
  let c ← decPtr (fun v => decBool (some v)) (m.lookup "controller")
  let b ← decPtr (fun v => decBool (some v)) (m.lookup "blockOwnerDeletion")
  pure { APIVersion := a, Kind := k, Name := n, UID := u, Controller := c,
         BlockOwnerDeletion := b }

def encObjectMeta (x : ObjectMeta) : Value :=
  .obj (emit [("name", omitStr x.Name), ("generateName", omitStr x.GenerateName),
    ("namespace", omitStr x.Namespace), ("uid", omitStr x.UID),
    ("resourceVersion", omitStr x.ResourceVersion), ("labels", omitMap x.Labels),
    ("annotations", omitMap x.Annotations),
    ("ownerReferences", omitList (x.OwnerReferences.map encOwnerReference))])

def decObjectMetaFields (m : List (String × Value)) : Except Err ObjectMeta := do
  let n ← decStr (m.lookup "name")
  let g ← decStr (m.lookup "generateName")
  let ns ← decStr (m.lookup "namespace")
  let u ← decStr (m.lookup "uid")
  let rv ← decStr (m.lookup "resourceVersion")
  let l ← decMap (m.lookup "labels")
  let a ← decMap (m.lookup "annotations")
  let o ← decList (decObj decOwnerReferenceFields) (m.lookup "ownerReferences")
  pure { Name := n, GenerateName := g, Namespace := ns, UID := u, ResourceVersion := rv,
         Labels := l, Annotations := a, OwnerReferences := o }

def encTLS (x : TLS) : Value :=
  .obj (emit [("secretName", omitStr x.SecretName), ("passthrough", omitBool x.Passthrough)])

def decTLSFields (m : List (String × Value)) : Except Err TLS := do
  let s ← decStr (m.lookup "secretName")
  let p ← decBool (m.lookup "passthrough")
  pure { SecretName := s, Passthrough := p }

def encVirtualHost (x : VirtualHost) : Value :=
  .obj (emit [("fqdn", some (.str x.Fqdn)), ("tls", x.TLS.map encTLS)])

def decVirtualHostFields (m : List (String × Value)) : Except Err VirtualHost := do
  let f ← decStr (m.lookup "fqdn")
  let t ← decPtr (decObj decTLSFields) (m.lookup "tls")
  pure { Fqdn := f, TLS := t }

def encMatchCondition (x : MatchCondition) : Value :=
  .obj (emit [("prefix", omitStr x.Prefix)])

def decMatchConditionFields (m : List (String × Value)) : Except Err MatchCondition := do
  let p ← decStr (m.lookup "prefix")
  pure { Prefix := p }

def encService (x : Service) : Value :=
  .obj (emit [("name", some (.str x.Name)), ("port", some (.int x.Port)),
    ("weight", omitInt x.Weight), ("protocol", x.Protocol.map Value.str)])

def decServiceFields (m : List (String × Value)) : Except Err Service := do
  let n ← decStr (m.lookup "name")
  let p ← decInt (m.lookup "port")
  let w ← decInt (m.lookup "weight")
  let pr ← decPtr (fun v => decStr (some v)) (m.lookup "protocol")
  pure { Name := n, Port := p, Weight := w, Protocol := pr }

def encRoute (x : Route) : Value :=
  .obj (emit [("conditions", omitList (x.Conditions.map encMatchCondition)),
    ("services", omitList (x.Services.map encService)),
    ("enableWebsockets", omitBool x.EnableWebsockets),
    ("permitInsecure", omitBool x.PermitInsecure)])

def decRouteFields (m : List (String × Value)) : Except Err Route := do
  let c ← decList (decObj decMatchConditionFields) (m.lookup "conditions")
  let s ← decList (decObj decServiceFields) (m.lookup "services")
  let w ← decBool (m.lookup "enableWebsockets")
  let p ← decBool (m.lookup "permitInsecure")
  pure { Conditions := c, Services := s, EnableWebsockets := w, PermitInsecure := p }

def encHTTPProxySpec (x : HTTPProxySpec) : Value :=
  .obj (emit [("virtualhost", x.VirtualHost.map encVirtualHost),
    ("routes", omitList (x.Routes.map encRoute)),
    ("ingressClassName", omitStr x.IngressClassName)])

def decHTTPProxySpecFields (m : List (String × Value)) : Except Err HTTPProxySpec := do
  let v ← decPtr (decObj decVirtualHostFields) (m.lookup "virtualhost")
  let r ← decList (decObj decRouteFields) (m.lookup "routes")
  let i ← decStr (m.lookup "ingressClassName")
  pure { VirtualHost := v, Routes := r, IngressClassName := i }

def encHTTPProxyStatus (x : HTTPProxyStatus) : Value :=
  .obj (emit [("currentStatus", omitStr x.CurrentStatus),
    ("description", omitStr x.Description)])

def decHTTPProxyStatusFields (m : List (String × Value)) : Except Err HTTPProxyStatus := do
  let c ← decStr (m.lookup "currentStatus")
  let d ← decStr (m.lookup "description")
  pure { CurrentStatus := c, Description := d }

/-- Embedding of `runtime.DefaultUnstructuredConverter.ToUnstructured` at type
`*HTTPProxy`: `TypeMeta` is inlined, `metadata`, `spec` and `status` are nested. -/
def toUnstructured (x : HTTPProxy) : Except Err (List (String × Value)) :=
  .ok (emit [("kind", omitStr x.TypeMeta.Kind), ("apiVersion", omitStr x.TypeMeta.APIVersion),
    ("metadata", some (encObjectMeta x.ObjectMeta)),
    ("spec", some (encHTTPProxySpec x.Spec)),
    ("status", some (encHTTPProxyStatus x.Status))])

/-- Embedding of `runtime.DefaultUnstructuredConverter.FromUnstructured` at type
`*HTTPProxy`. -/
def fromUnstructured (m : List (String × Value)) : Except Err HTTPProxy := do
  let k ← decStr (m.lookup "kind")
  let a ← decStr (m.lookup "apiVersion")
  let o ← decStruct decObjectMetaFields (m.lookup "metadata")
  let s ← decStruct decHTTPProxySpecFields (m.lookup "spec")
  let st ← decStruct decHTTPProxyStatusFields (m.lookup "status")
  pure { TypeMeta := { Kind := k, APIVersion := a }, ObjectMeta := o, Spec := s, Status := st }

/-! ## Package `contour` -/

def httpProxyGvr : GroupVersionResource :=
  { Group := "projectcontour.io", Version := "v1", Resource := "httpproxies" }

def httpProxyGvk : GroupVersionKind :=
  { Group := "projectcontour.io", Version := "v1", Kind := "HTTPProxy" }

/-- Embedding of `HTTPProxyGvr`. -/
def HTTPProxyGvr : GroupVersionResource := httpProxyGvr

/-- Embedding of `schema.GroupVersion.String`. -/
def groupVersionString (group version : String) : String :=
  if group.length > 0 then group ++ "/" ++ version else version

/-- Embedding of `schema.GroupVersionKind.ToAPIVersionAndKind`. -/
def GroupVersionKind.ToAPIVersionAndKind (gvk : GroupVersionKind) : String × String :=
  if gvk.Group = "" ∧ gvk.Version = "" ∧ gvk.Kind = "" then ("", "")
  else (groupVersionString gvk.Group gvk.Version, gvk.Kind)

/-- Embedding of `metav1.TypeMeta.SetGroupVersionKind`. -/
def TypeMeta.SetGroupVersionKind (_t : TypeMeta) (gvk : GroupVersionKind) : TypeMeta :=
  { APIVersion := gvk.ToAPIVersionAndKind.1, Kind := gvk.ToAPIVersionAndKind.2 }

/-- The receiver of `ToUnstructured` after the call: the method has a pointer
receiver and stamps the group, version and kind on it before converting. -/
def HTTPProxy.stamped (httpProxy : HTTPProxy) : HTTPProxy :=
  { httpProxy with TypeMeta := httpProxy.TypeMeta.SetGroupVersionKind httpProxyGvk }

/-- Embedding of `(*HTTPProxy).ToUnstructured` (the returned pair; the receiver is
left as `HTTPProxy.stamped`). -/
def HTTPProxy.ToUnstructured (httpProxy : HTTPProxy) : Except Err Unstructured :=
  match toUnstructured httpProxy.stamped with
  | .error err => .error err
  | .ok unstructuredObj => .ok { Object := unstructuredObj }

/-- The generic object `ToUnstructured` returns for a receiver: the conversion of the
stamped receiver never fails on these types. -/
def HTTPProxy.encoded (httpProxy : HTTPProxy) : Unstructured :=
  { Object := emit [("kind", omitStr httpProxy.stamped.TypeMeta.Kind),
      ("apiVersion", omitStr httpProxy.stamped.TypeMeta.APIVersion),
      ("metadata", some (encObjectMeta httpProxy.ObjectMeta)),
      ("spec", some (encHTTPProxySpec httpProxy.Spec)),
      ("status", some (encHTTPProxyStatus httpProxy.Status))] }

/-- Embedding of `HTTPProxyFromUnstructured`. -/
def HTTPProxyFromUnstructured (unstr : Unstructured) : Except Err HTTPProxy :=
  match fromUnstructured unstr.Object with
  | .error err => .error err
  | .ok httpProxy => .ok httpProxy

/-! ## Accessors of generic objects -/

/-- The string a value holds, the empty string when it is missing or no string. -/
def stringOf : Option Value → String
  | some (.str s) => s
  | _ => ""

/-- The string map a value holds, empty when it is missing, no map, or some entry is
not a string. -/
def stringMapOf : Option Value → List (String × String)
  | some (.obj es) =>
    match traverse decEntry es with
    | .ok l => l
    | .error _ => []
  | _ => []

/-- Embedding of `unstructured.NestedString` for a path of two keys: the empty string
when the path is missing or does not hold a string. -/
def nestedString (m : List (String × Value)) (a b : String) : String :=
  match m.lookup a with
  | some (.obj kvs) => stringOf (kvs.lookup b)
  | _ => ""

/-- Embedding of `unstructured.NestedStringMap` for a path of two keys: empty when the
path is missing or some value is not a string. -/
def nestedStringMap (m : List (String × Value)) (a b : String) : List (String × String) :=
  match m.lookup a with
  | some (.obj kvs) => stringMapOf (kvs.lookup b)
  | _ => []

/-- Embedding of `(*Unstructured).GetName`. -/
def Unstructured.GetName (u : Unstructured) : String := nestedString u.Object "metadata" "name"

/-- Embedding of `(*Unstructured).GetNamespace`. -/
def Unstructured.GetNamespace (u : Unstructured) : String :=
  nestedString u.Object "metadata" "namespace"

/-- Embedding of `(*Unstructured).GetGenerateName`. -/
def Unstructured.GetGenerateName (u : Unstructured) : String :=
  nestedString u.Object "metadata" "generateName"

/-- Embedding of `(*Unstructured).GetLabels`. -/
def Unstructured.GetLabels (u : Unstructured) : List (String × String) :=
  nestedStringMap u.Object "metadata" "labels"

/-- Embedding of `labels.Set(set).AsSelector().Matches(ls)`: every entry of the set is
an entry of the labels. -/
def selectorMatches (set ls : List (String × String)) : Bool :=
  set.all fun kv => ls.contains kv

/-! ## The store client -/

/-- A write issued on the dynamic client:
`DynamicClient.Resource(gvr).Namespace(ns)` followed by `Create`, `Update` or `Delete`. -/
inductive Call where
  | create (gvr : GroupVersionResource) (ns : String) (obj : Unstructured)
  | update (gvr : GroupVersionResource) (ns : String) (obj : Unstructured)
  | delete (gvr : GroupVersionResource) (ns : String) (name : String)
deriving Repr

/-- Whether a call is a `Create`. -/
def Call.isCreate : Call → Bool
  | .create _ _ _ => true
  | _ => false

/-- Whether a call is an `Update`. -/
def Call.isUpdate : Call → Bool
  | .update _ _ _ => true
  | _ => false

/-- Whether a call is a `Delete`. -/
def Call.isDelete : Call → Bool
  | .delete _ _ _ => true
  | _ => false

/-- The store as the solver reaches it, over store states `σ`: the lister
(`httpProxyLister.Namespace(ns).List(selector)`, a read) and the three writes of the
dynamic client.  Every operation may fail with an error of the store's own. -/
structure Store (σ : Type) where
  list : σ → String → List (String × String) → Except String (List Unstructured)
  create : σ → GroupVersionResource → String → Unstructured → Except String Unstructured × σ
  update : σ → GroupVersionResource → String → Unstructured → Except String Unstructured × σ
  delete : σ → GroupVersionResource → String → String → Option String × σ

/-- What a call of a solver method leaves behind: the Go result, the store state and
the writes issued, in order. -/
structure Outcome (σ α : Type) where
  result : Except Err α
  state : σ
  calls : List Call

/-- The receiver of the methods: `Solver`, with the lister and the dynamic client
gathered in `store`. -/
structure Solver (σ : Type) where
  deps : Deps
  store : Store σ

/-! ## Package `http`: the convergence logic -/

/-- Embedding of `metav1.NewControllerRef`. -/
def NewControllerRef (owner : ObjectMeta) (gvk : GroupVersionKind) : OwnerReference :=
  { APIVersion := groupVersionString gvk.Group gvk.Version,
    Kind := gvk.Kind,
    Name := owner.Name,
    UID := owner.UID,
    BlockOwnerDeletion := some true,
    Controller := some true }

/-- The loop `for _, hp := range hpList[1:]` of `getHTTPProxy`, run on the elements it
ranges over: deletes by name, stops at the first error. -/
def deleteHTTPProxies {σ : Type} (s : Solver σ) (ns : String) :
    σ → List Unstructured → Option String × σ × List Call
  | st, [] => (none, st, [])
  | st, hp :: rest =>
    match s.store.delete st HTTPProxyGvr ns hp.GetName with
    | (some err, st') => (some err, st', [Call.delete HTTPProxyGvr ns hp.GetName])
    | (none, st') =>
      let r := deleteHTTPProxies s ns st' rest
      (r.1, r.2.1, Call.delete HTTPProxyGvr ns hp.GetName :: r.2.2)

/-- Embedding of `(*Solver).getHTTPProxy`. -/
def Solver.getHTTPProxy {σ : Type} (s : Solver σ) (st : σ) (ch : Challenge) :
    Outcome σ (Option HTTPProxy) :=
  let selector := s.deps.podLabels ch
  match s.store.list st ch.ObjectMeta.Namespace selector with
  | .error err => ⟨.error (.store err), st, []⟩
  | .ok hpList =>
    match hpList with
    | [] => ⟨.ok none, st, []⟩
    | [hp] =>
      match HTTPProxyFromUnstructured hp with
      | .error err => ⟨.error err, st, []⟩
      | .ok httpProxy => ⟨.ok (some httpProxy), st, []⟩
    | _ :: rest =>
      match deleteHTTPProxies s ch.ObjectMeta.Namespace st rest with
      | (some err, st', calls) => ⟨.error (.store err), st', calls⟩
      | (none, st', calls) => ⟨.error .multipleFound, st', calls⟩

/-- The object `createHTTPProxy` builds before encoding it. -/
def newHTTPProxy (D : Deps) (ch : Challenge) (svcName : String) : HTTPProxy :=
  { ObjectMeta :=
      { GenerateName := "cm-acme-http-solver-",
        Namespace := ch.ObjectMeta.Namespace,
        Annotations := [("kubernetes.io/ingress.class", "contour-public")],
        Labels := D.podLabels ch,
        OwnerReferences := [NewControllerRef ch.ObjectMeta D.challengeGvk] },
    Spec := createHTTPProxySpec D ch svcName }

/-- Embedding of `(*Solver).createHTTPProxy`. -/
def Solver.createHTTPProxy {σ : Type} (s : Solver σ) (st : σ) (ch : Challenge)
    (svcName : String) : Outcome σ HTTPProxy :=
  let hp := newHTTPProxy s.deps ch svcName
  match hp.ToUnstructured with
  | .error err => ⟨.error err, st, []⟩
  | .ok unstr =>
    match s.store.create st HTTPProxyGvr ch.ObjectMeta.Namespace unstr with
    | (.error err, st') =>
      ⟨.error (.store err), st', [Call.create HTTPProxyGvr ch.ObjectMeta.Namespace unstr]⟩
    | (.ok val, st') =>
      match HTTPProxyFromUnstructured val with
      | .error err =>
        ⟨.error err, st', [Call.create HTTPProxyGvr ch.ObjectMeta.Namespace unstr]⟩
      | .ok httpProxy =>
        ⟨.ok httpProxy, st', [Call.create HTTPProxyGvr ch.ObjectMeta.Namespace unstr]⟩

/-- Embedding of `(*Solver).checkAndUpdateHTTPProxy`; `reflect.DeepEqual` on the two
spec pointers is equality of the specs. -/
def Solver.checkAndUpdateHTTPProxy {σ : Type} (s : Solver σ) (st : σ) (ch : Challenge)
    (svcName : String) (httpproxy : HTTPProxy) : Outcome σ HTTPProxy :=
  let expectedSpec := createHTTPProxySpec s.deps ch svcName
  if httpproxy.Spec = expectedSpec then ⟨.ok httpproxy, st, []⟩
  else
    let httpproxy := { httpproxy with Spec := expectedSpec }
    match httpproxy.ToUnstructured with
    | .error err => ⟨.error err, st, []⟩
    | .ok unstr =>
      match s.store.update st HTTPProxyGvr ch.ObjectMeta.Namespace unstr with
      | (.error err, st') =>
        ⟨.error (.store err), st', [Call.update HTTPProxyGvr ch.ObjectMeta.Namespace unstr]⟩
      | (.ok val, st') =>
        match HTTPProxyFromUnstructured val with
        | .error err =>
          ⟨.error err, st', [Call.update HTTPProxyGvr ch.ObjectMeta.Namespace unstr]⟩
        | .ok httpProxy =>
          ⟨.ok httpProxy, st', [Call.update HTTPProxyGvr ch.ObjectMeta.Namespace unstr]⟩

/-- Embedding of `(*Solver).ensureHTTPProxy`. -/
def Solver.ensureHTTPProxy {σ : Type} (s : Solver σ) (st : σ) (ch : Challenge)
    (svcName : String) : Outcome σ HTTPProxy :=
  match s.getHTTPProxy st ch with
  | ⟨.error err, st', calls⟩ => ⟨.error err, st', calls⟩
  | ⟨.ok none, st', calls⟩ =>
    match s.createHTTPProxy st' ch svcName with
    | ⟨.error err, st2, calls2⟩ => ⟨.error err, st2, calls ++ calls2⟩
    | ⟨.ok httpProxy, st2, calls2⟩ => ⟨.ok httpProxy, st2, calls ++ calls2⟩
  | ⟨.ok (some httpProxy), st', calls⟩ =>
    match s.checkAndUpdateHTTPProxy st' ch svcName httpProxy with
    | ⟨.error err, st2, calls2⟩ => ⟨.error err, st2, calls ++ calls2⟩
    | ⟨.ok httpProxy, st2, calls2⟩ => ⟨.ok httpProxy, st2, calls ++ calls2⟩

/-- Embedding of `(*Solver).cleanupHTTPProxy`. -/
def Solver.cleanupHTTPProxy {σ : Type} (_s : Solver σ) (st : σ) (_ch : Challenge) :
    Outcome σ Unit :=
  ⟨.ok (), st, []⟩

/-- Every deletion of the loop of `getHTTPProxy`, issued in list order on the
successive store states, succeeds. -/
def deletesSucceed {σ : Type} (s : Solver σ) (ns : String) : σ → List Unstructured → Bool
  | _, [] => true
  | st, hp :: rest =>
    match s.store.delete st HTTPProxyGvr ns hp.GetName with
    | (some _, _) => false
    | (none, st') => deletesSucceed s ns st' rest

/-- The store state after deleting, in order, the names of the given objects. -/
def stateAfterDeletes {σ : Type} (s : Solver σ) (ns : String) : σ → List Unstructured → σ
  | st, [] => st
  | st, hp :: rest => stateAfterDeletes s ns (s.store.delete st HTTPProxyGvr ns hp.GetName).2 rest

/-- The `Delete` call the loop issues for one listed object. -/
def deleteCall (ns : String) (hp : Unstructured) : Call :=
  Call.delete HTTPProxyGvr ns hp.GetName

/-! ## A store that holds what was written

An in-memory store: the lister reads the very objects the dynamic client wrote, in the
order they were created, and nothing else mutates them. -/

/-- State of the in-memory store: the objects held, a counter for generated names and
the names whose deletion the store refuses. -/
structure MemState where
  objects : List Unstructured
  seq : Nat := 0
  undeletable : List String := []

/-- The key of an object in the store: namespace and name. -/
def objectKey (u : Unstructured) : String × String := (u.GetNamespace, u.GetName)

/-- Sets a key of a generic map, keeping the place of a key already present. -/
def setField (k : String) (v : Value) : List (String × Value) → List (String × Value)
  | [] => [(k, v)]
  | (k', v') :: t => if k' = k then (k, v) :: t else (k', v') :: setField k v t

/-- Sets `metadata.name` of a generic object, as `(*Unstructured).SetName` does for a
name that is not empty. -/
def Unstructured.SetName (u : Unstructured) (name : String) : Unstructured :=
  { Object := setField "metadata"
      (.obj (setField "name" (.str name)
        (match u.Object.lookup "metadata" with
         | some (.obj kvs) => kvs
         | _ => []))) u.Object }

/-- Whether the store holds an object under the key. -/
def MemState.has (m : MemState) (ns name : String) : Bool :=
  m.objects.any fun o => objectKey o == (ns, name)

/-- No two objects of the store share namespace and name. -/
def MemState.WF (m : MemState) : Prop := (m.objects.map objectKey).Nodup

/-- Whether an object lies in the namespace and is matched by the selector. -/
def listed (ns : String) (selector : List (String × String)) (o : Unstructured) : Bool :=
  o.GetNamespace == ns && selectorMatches selector o.GetLabels

/-- The lister: the objects of the namespace that the selector matches. -/
def memList (m : MemState) (ns : String) (selector : List (String × String)) :
    Except String (List Unstructured) :=
  .ok (m.objects.filter (listed ns selector))

/-- The name a created object gets: its own, or one generated from `generateName`. -/
def MemState.nameFor (m : MemState) (obj : Unstructured) : String :=
  if obj.GetName = "" then obj.GetGenerateName ++ toString m.seq else obj.GetName

/-- The `Create` of the store: refuses an object of another namespace or a name already taken; generates
the name from `generateName` when none is given; stores and returns the named object. -/
def memCreate (m : MemState) (_gvr : GroupVersionResource) (ns : String) (obj : Unstructured) :
    Except String Unstructured × MemState :=
  if obj.GetNamespace ≠ ns then (.error "namespace does not match the request", m)
  else if m.has ns (m.nameFor obj) then (.error "already exists", m)
  else
    (.ok (obj.SetName (m.nameFor obj)),
     { m with objects := m.objects ++ [obj.SetName (m.nameFor obj)], seq := m.seq + 1 })

/-- The `Update` of the store: replaces the object stored under the key of the submitted one and returns
what was submitted. -/
def memUpdate (m : MemState) (_gvr : GroupVersionResource) (ns : String) (obj : Unstructured) :
    Except String Unstructured × MemState :=
  if obj.GetNamespace ≠ ns then (.error "namespace does not match the request", m)
  else if m.has ns obj.GetName then
    (.ok obj,
     { m with objects := m.objects.map fun o => if objectKey o = (ns, obj.GetName) then obj else o })
  else (.error "not found", m)

/-- The `Delete` of the store: removes the object stored under the key, unless the store refuses. -/
def memDelete (m : MemState) (_gvr : GroupVersionResource) (ns name : String) :
    Option String × MemState :=
  if name ∈ m.undeletable then (some "forbidden", m)
  else if m.has ns name then
    (none, { m with objects := m.objects.filter fun o => objectKey o != (ns, name) })
  else (some "not found", m)

/-- The in-memory store as a store client. -/
def memStore : Store MemState :=
  { list := memList, create := memCreate, update := memUpdate, delete := memDelete }

/-- A solver over the in-memory store. -/
def memSolver (D : Deps) : Solver MemState := { deps := D, store := memStore }

/-! ## Sample values for worked examples -/

/-- Sample values for the declarations the package takes from elsewhere: labels built
from the DNS name and the token, the kind of an ACME challenge, port 8089. -/
def sampleDeps : Deps :=
  { podLabels := fun ch =>
      [("acme.cert-manager.io/http-domain", ch.Spec.DNSName),
       ("acme.cert-manager.io/http-token", ch.Spec.Token),
       ("acme.cert-manager.io/http01-solver", "true")],
    challengeGvk := { Group := "acme.cert-manager.io", Version := "v1", Kind := "Challenge" },
    acmeSolverListenPort := 8089 }

/-- A sample challenge in namespace `ns1` for `example.com` with token `tok123`. -/
def sampleChallenge : Challenge :=
  { ObjectMeta := { Name := "ch1", Namespace := "ns1", UID := "uid-1" },
    Spec := { DNSName := "example.com", Token := "tok123" } }

/-- A stored child object of the sample challenge with the given name, routing to the
given service. -/
def sampleProxy (name svcName : String) : Unstructured :=
  ({ ObjectMeta := { Name := name, Namespace := "ns1",
                     Labels := sampleDeps.podLabels sampleChallenge },
     Spec := createHTTPProxySpec sampleDeps sampleChallenge svcName } : HTTPProxy).encoded

/-- A store holding one child object of the sample challenge, named `p1`. -/
def storeOne (svcName : String) : MemState := { objects := [sampleProxy "p1" svcName] }

/-- A store holding four child objects of the sample challenge. -/
def storeMany : MemState :=
  { objects := [sampleProxy "p1" "svc", sampleProxy "p2" "svc", sampleProxy "p3" "svc",
      sampleProxy "p4" "svc"] }

/-- The store of four child objects, refusing to delete `p3`. -/
def storeLocked : MemState := { storeMany with undeletable := ["p3"] }

/-- The decoding of `sampleProxy name svcName`. -/
def sampleDecoded (name svcName : String) : HTTPProxy :=
  { TypeMeta := { Kind := "HTTPProxy", APIVersion := "projectcontour.io/v1" },
    ObjectMeta := { Name := name, Namespace := "ns1",
                    Labels := sampleDeps.podLabels sampleChallenge },
    Spec := createHTTPProxySpec sampleDeps sampleChallenge svcName }

/-- A stored object with the labels of the sample challenge whose `spec` is a string,
not an object. -/
def malformedProxy (name : String) : Unstructured :=
  { Object := setField "spec" (.str "not an object") (sampleProxy name "svc").Object }

/-- A store holding a malformed object and a child object of the sample challenge. -/
def storeMalformed : MemState :=
  { objects := [malformedProxy "p1", sampleProxy "p2" "svc"] }

/-! ## The codec with nil told apart from empty

`reflect.DeepEqual` tells a nil slice or map from an allocated one without elements, and
the converter does not give back what it was given there: a field tagged `omitempty` is
left out in both cases and decodes to nil.  The types of `Exact` are the object types
above with every slice and map field a `Coll`; the round trip of the codec is stated on
them. -/

/-- A Go slice or map: nil, or allocated with its elements (possibly none). -/
inductive Coll (α : Type) where
  | nil
  | mk (elems : List α)
deriving DecidableEq, Repr

/-- The elements of a collection, none for nil. -/
def Coll.elems {α : Type} : Coll α → List α
  | .nil => []
  | .mk l => l

/-- Applies a function to every element; nil stays nil. -/
def Coll.map {α β : Type} (f : α → β) : Coll α → Coll β
  | .nil => .nil
  | .mk l => .mk (l.map f)

/-- The collection with "allocated, no elements" replaced by nil. -/
def Coll.normalized {α : Type} : Coll α → Coll α
  | .nil => .nil
  | .mk [] => .nil
  | .mk (a :: l) => .mk (a :: l)

/-- Decodes an array into a slice: nil when the key is missing or null, allocated
otherwise. -/
def decColl {α : Type} (f : Value → Except Err α) : Option Value → Except Err (Coll α)
  | none => .ok .nil
  | some .null => .ok .nil
  | some (.arr xs) =>
    match traverse f xs with
    | .error e => .error e
    | .ok l => .ok (.mk l)
  | some _ => .error (.conversion "expected array")

/-- Decodes one entry of a string map; a null value is the empty string. -/
def decEntryOrNull (kv : String × Value) : Except Err (String × String) :=
  match kv.2 with
  | .str s => .ok (kv.1, s)
  | .null => .ok (kv.1, "")
  | _ => .error (.conversion "expected string")

/-- Decodes an object into a string map: nil when the key is missing or null, allocated
otherwise. -/
def decMapColl : Option Value → Except Err (Coll (String × String))
  | none => .ok .nil
  | some .null => .ok .nil
  | some (.obj kvs) =>
    match traverse decEntryOrNull kvs with
    | .error e => .error e
    | .ok l => .ok (.mk l)
  | some _ => .error (.conversion "expected object")

/-- Decodes one element of an array of structures; a null element is the zero value. -/
def decElem {α : Type} (f : List (String × Value) → Except Err α) (v : Value) : Except Err α :=
  decStruct f (some v)

namespace Exact

/-- Object metadata: `metav1.ObjectMeta`. -/
structure ObjectMeta where
  Name : String := ""
  GenerateName : String := ""
  Namespace : String := ""
  UID : String := ""
  ResourceVersion : String := ""
  Labels : Coll (String × String) := .nil
  Annotations : Coll (String × String) := .nil
  OwnerReferences : Coll OwnerReference := .nil
deriving DecidableEq, Repr

/-- Routing rule: `contourv1.Route`. -/
structure Route where
  Conditions : Coll MatchCondition := .nil
  Services : Coll Service := .nil
  EnableWebsockets : Bool := false
  PermitInsecure : Bool := false
deriving DecidableEq, Repr

/-- Desired configuration of the child object: `contourv1.HTTPProxySpec`. -/
structure HTTPProxySpec where
  VirtualHost : Option VirtualHost := none
  Routes : Coll Route := .nil
  IngressClassName : String := ""
deriving DecidableEq, Repr

/-- The child object: `contour.HTTPProxy`. -/
structure HTTPProxy where
  TypeMeta : TypeMeta := {}
  ObjectMeta : ObjectMeta := {}
  Spec : HTTPProxySpec := {}
  Status : HTTPProxyStatus := {}
deriving DecidableEq, Repr

/-- The metadata with nil and empty no longer told apart. -/
def ObjectMeta.forget (x : ObjectMeta) : Contour.ObjectMeta :=
  { Name := x.Name, GenerateName := x.GenerateName, Namespace := x.Namespace, UID := x.UID,
    ResourceVersion := x.ResourceVersion, Labels := x.Labels.elems,
    Annotations := x.Annotations.elems, OwnerReferences := x.OwnerReferences.elems }

/-- The route with nil and empty no longer told apart. -/
def Route.forget (x : Route) : Contour.Route :=
  { Conditions := x.Conditions.elems, Services := x.Services.elems,
    EnableWebsockets := x.EnableWebsockets, PermitInsecure := x.PermitInsecure }

/-- The spec with nil and empty no longer told apart. -/
def HTTPProxySpec.forget (x : HTTPProxySpec) : Contour.HTTPProxySpec :=
  { VirtualHost := x.VirtualHost, Routes := x.Routes.elems.map Route.forget,
    IngressClassName := x.IngressClassName }

/-- The object with nil and empty no longer told apart. -/
def HTTPProxy.forget (x : HTTPProxy) : Contour.HTTPProxy :=
  { TypeMeta := x.TypeMeta, ObjectMeta := x.ObjectMeta.forget, Spec := x.Spec.forget,
    Status := x.Status }

/-- The metadata with every allocated map or slice without elements replaced by nil. -/
def ObjectMeta.normalized (x : ObjectMeta) : ObjectMeta :=
  { x with Labels := x.Labels.normalized, Annotations := x.Annotations.normalized,
           OwnerReferences := x.OwnerReferences.normalized }

/-- The route with every allocated slice without elements replaced by nil. -/
def Route.normalized (x : Route) : Route :=
  { x with Conditions := x.Conditions.normalized, Services := x.Services.normalized }

/-- The spec with every allocated slice without elements replaced by nil, in the routes
too. -/
def HTTPProxySpec.normalized (x : HTTPProxySpec) : HTTPProxySpec :=
  { x with Routes := (x.Routes.map Route.normalized).normalized }

/-- The object with every allocated slice or map without elements replaced by nil. -/
def HTTPProxy.normalized (x : HTTPProxy) : HTTPProxy :=
  { x with ObjectMeta := x.ObjectMeta.normalized, Spec := x.Spec.normalized }

def encObjectMeta (x : ObjectMeta) : Value :=
  .obj (emit [("name", omitStr x.Name), ("generateName", omitStr x.GenerateName),
    ("namespace", omitStr x.Namespace), ("uid", omitStr x.UID),
    ("resourceVersion", omitStr x.ResourceVersion), ("labels", omitMap x.Labels.elems),
    ("annotations", omitMap x.Annotations.elems),
    ("ownerReferences", omitList (x.OwnerReferences.elems.map encOwnerReference))])

def decObjectMetaFields (m : List (String × Value)) : Except Err ObjectMeta := do
  let n ← decStr (m.lookup "name")
  let g ← decStr (m.lookup "generateName")
  let ns ← decStr (m.lookup "namespace")
  let u ← decStr (m.lookup "uid")
  let rv ← decStr (m.lookup "resourceVersion")
  let l ← decMapColl (m.lookup "labels")
  let a ← decMapColl (m.lookup "annotations")
  let o ← decColl (decElem decOwnerReferenceFields) (m.lookup "ownerReferences")
  pure { Name := n, GenerateName := g, Namespace := ns, UID := u, ResourceVersion := rv,
         Labels := l, Annotations := a, OwnerReferences := o }

def encRoute (x : Route) : Value :=
  .obj (emit [("conditions", omitList (x.Conditions.elems.map encMatchCondition)),
    ("services", omitList (x.Services.elems.map encService)),
    ("enableWebsockets", omitBool x.EnableWebsockets),
    ("permitInsecure", omitBool x.PermitInsecure)])

def decRouteFields (m : List (String × Value)) : Except Err Route := do
  let c ← decColl (decElem decMatchConditionFields) (m.lookup "conditions")
  let s ← decColl (decElem decServiceFields) (m.lookup "services")
  let w ← decBool (m.lookup "enableWebsockets")
  let p ← decBool (m.lookup "permitInsecure")
  pure { Conditions := c, Services := s, EnableWebsockets := w, PermitInsecure := p }

def encHTTPProxySpec (x : HTTPProxySpec) : Value :=
  .obj (emit [("virtualhost", x.VirtualHost.map encVirtualHost),
    ("routes", omitList (x.Routes.elems.map encRoute)),
    ("ingressClassName", omitStr x.IngressClassName)])

def decHTTPProxySpecFields (m : List (String × Value)) : Except Err HTTPProxySpec := do
  let v ← decPtr (decObj decVirtualHostFields) (m.lookup "virtualhost")
  let r ← decColl (decElem decRouteFields) (m.lookup "routes")
  let i ← decStr (m.lookup "ingressClassName")
  pure { VirtualHost := v, Routes := r, IngressClassName := i }

/-- Embedding of `runtime.DefaultUnstructuredConverter.ToUnstructured` at type
`*HTTPProxy`. -/
def toUnstructured (x : HTTPProxy) : Except Err (List (String × Value)) :=
  .ok (emit [("kind", omitStr x.TypeMeta.Kind), ("apiVersion", omitStr x.TypeMeta.APIVersion),
    ("metadata", some (encObjectMeta x.ObjectMeta)),
    ("spec", some (encHTTPProxySpec x.Spec)),
    ("status", some (encHTTPProxyStatus x.Status))])

/-- Embedding of `runtime.DefaultUnstructuredConverter.FromUnstructured` at type
`*HTTPProxy`. -/
def fromUnstructured (m : List (String × Value)) : Except Err HTTPProxy := do
  let k ← decStr (m.lookup "kind")
  let a ← decStr (m.lookup "apiVersion")
  let o ← decStruct decObjectMetaFields (m.lookup "metadata")
  let s ← decStruct decHTTPProxySpecFields (m.lookup "spec")
  let st ← decStruct decHTTPProxyStatusFields (m.lookup "status")
  pure { TypeMeta := { Kind := k, APIVersion := a }, ObjectMeta := o, Spec := s, Status := st }

/-- The receiver of `ToUnstructured` after the call. -/
def HTTPProxy.stamped (httpProxy : HTTPProxy) : HTTPProxy :=
  { httpProxy with TypeMeta := httpProxy.TypeMeta.SetGroupVersionKind httpProxyGvk }

/-- Embedding of `(*HTTPProxy).ToUnstructured`. -/
def HTTPProxy.ToUnstructured (httpProxy : HTTPProxy) : Except Err Unstructured :=
  match toUnstructured httpProxy.stamped with
  | .error err => .error err
  | .ok unstructuredObj => .ok { Object := unstructuredObj }

/-- Embedding of `HTTPProxyFromUnstructured`. -/
def HTTPProxyFromUnstructured (unstr : Unstructured) : Except Err HTTPProxy :=
  match fromUnstructured unstr.Object with
  | .error err => .error err
  | .ok httpProxy => .ok httpProxy

/-- The object of the test "should not modify correct HTTPProxy" before it is encoded,
for the sample challenge: owner references allocated without elements. -/
def testHTTPProxy : HTTPProxy :=
  { ObjectMeta :=
      { GenerateName := "test-httpproxy-", Namespace := "ns1",
        Labels := .mk (sampleDeps.podLabels sampleChallenge),
        OwnerReferences := .mk [] },
    Spec :=
      { VirtualHost := some { Fqdn := "example.com" },
        Routes := .mk [
          { Conditions := .mk [{ Prefix := "/.well-known/acme-challenge/tok123" }],
            Services := .mk [{ Name := "fakeservice", Port := 8089 }],
            PermitInsecure := true }] } }

end Exact

/-! # Properties -/

/-! ## The converter round-trips -/

theorem lookup_cons_ite {β : Type} (k k' : String) (v : β) (t : List (String × β)) :
    List.lookup k ((k', v) :: t) = if k = k' then some v else List.lookup k t := by
  by_cases h : k = k'
  · subst h; simp
  · have hb : (k == k') = false := by simpa using h
    simp [List.lookup_cons, hb, h]

theorem lookup_emit (tbl : List (String × Option Value)) (k : String)
    (h : (tbl.map Prod.fst).Nodup) :
    (emit tbl).lookup k = (tbl.lookup k).join := by
  induction tbl with
  | nil => rfl
  | cons e t ih =>
    obtain ⟨k', v⟩ := e
    simp only [List.map_cons, List.nodup_cons] at h
    cases v with
    | some v =>
      simp only [emit, List.lookup_cons]
      cases hk : (k == k') with
      | true => simp
      | false => simpa using ih h.2
    | none =>
      simp only [emit, List.lookup_cons]
      cases hk : (k == k') with
      | true =>
        have hkk : k = k' := by simpa using hk
        subst hkk
        have hnone : List.lookup k t = none := by
          rw [List.lookup_eq_none_iff]
          intro p hp
          have hne : k ≠ p.1 := by
            intro hpk
            apply h.1
            rw [hpk]
            exact List.mem_map_of_mem _ hp
          simpa using hne
        rw [ih h.2, hnone]
        rfl
      | false => simpa using ih h.2

@[simp] theorem decStr_omitStr (s : String) : decStr (omitStr s) = .ok s := by
  unfold omitStr; split <;> simp_all [decStr]

@[simp] theorem decStr_some_str (s : String) : decStr (some (.str s)) = .ok s := rfl

@[simp] theorem decBool_omitBool (b : Bool) : decBool (omitBool b) = .ok b := by
  cases b <;> rfl

@[simp] theorem decInt_omitInt (n : Int) : decInt (omitInt n) = .ok n := by
  unfold omitInt; split <;> simp_all [decInt]

@[simp] theorem decInt_some_int (n : Int) : decInt (some (.int n)) = .ok n := rfl

theorem traverse_map {α β : Type} (enc : α → β) (dec : β → Except Err α)
    (h : ∀ a, dec (enc a) = .ok a) (xs : List α) :
    traverse dec (xs.map enc) = .ok xs := by
  induction xs with
  | nil => rfl
  | cons a as ih => simp [traverse, h, ih]

theorem decList_omitList {α : Type} (enc : α → Value) (dec : Value → Except Err α)
    (h : ∀ a, dec (enc a) = .ok a) (xs : List α) :
    decList dec (omitList (xs.map enc)) = .ok xs := by
  cases xs with
  | nil => rfl
  | cons a as =>
    have := traverse_map enc dec h (a :: as)
    simpa [omitList, decList] using this

theorem decPtr_map {α : Type} (enc : α → Value) (dec : Value → Except Err α)
    (h : ∀ a, dec (enc a) = .ok a) (hn : ∀ a, enc a ≠ .null) (x : Option α) :
    decPtr dec (x.map enc) = .ok x := by
  cases x with
  | none => rfl
  | some a =>
    simp only [Option.map_some']
    cases he : enc a with
    | null => exact absurd he (hn a)
    | _ => simp [decPtr, ← he, h, Except.map]

@[simp] theorem decMap_omitMap (m : List (String × String)) : decMap (omitMap m) = .ok m := by
  cases m with
  | nil => rfl
  | cons e t =>
    have := traverse_map (fun kv : String × String => (kv.1, Value.str kv.2)) decEntry
      (fun a => rfl) (e :: t)
    simpa [omitMap, decMap] using this

theorem decOwnerReference_enc (x : OwnerReference) :
    decObj decOwnerReferenceFields (encOwnerReference x) = .ok x := by
  obtain ⟨a, k, n, u, c, b⟩ := x
  cases c <;> cases b <;>
    simp [encOwnerReference, decObj, decOwnerReferenceFields, emit, decPtr, decBool,
      lookup_cons_ite, Except.map, bind, Except.bind, pure, Except.pure]

theorem decObjectMetaFields_enc (x : ObjectMeta) :
    decObj decObjectMetaFields (encObjectMeta x) = .ok x := by
  simp [encObjectMeta, decObj, decObjectMetaFields, lookup_emit, lookup_cons_ite,
    decList_omitList encOwnerReference _ decOwnerReference_enc,
    bind, Except.bind, pure, Except.pure]

theorem decTLS_enc (x : TLS) : decObj decTLSFields (encTLS x) = .ok x := by
  simp [encTLS, decObj, decTLSFields, lookup_emit, lookup_cons_ite,
    bind, Except.bind, pure, Except.pure]

theorem decVirtualHost_enc (x : VirtualHost) :
    decObj decVirtualHostFields (encVirtualHost x) = .ok x := by
  have hn : ∀ a, encTLS a ≠ .null := fun a h => by cases h
  simp [encVirtualHost, decObj, decVirtualHostFields, lookup_emit, lookup_cons_ite,
    decPtr_map encTLS _ decTLS_enc hn, bind, Except.bind, pure, Except.pure]

theorem decMatchCondition_enc (x : MatchCondition) :
    decObj decMatchConditionFields (encMatchCondition x) = .ok x := by
  simp [encMatchCondition, decObj, decMatchConditionFields, lookup_emit, lookup_cons_ite,
    bind, Except.bind, pure, Except.pure]

theorem decService_enc (x : Service) : decObj decServiceFields (encService x) = .ok x := by
  have hn : ∀ a : String, Value.str a ≠ .null := fun a h => by cases h
  simp [encService, decObj, decServiceFields, lookup_emit, lookup_cons_ite,
    decPtr_map Value.str (fun v => decStr (some v)) (fun _ => rfl) hn,
    bind, Except.bind, pure, Except.pure]

theorem decRoute_enc (x : Route) : decObj decRouteFields (encRoute x) = .ok x := by
  simp [encRoute, decObj, decRouteFields, lookup_emit, lookup_cons_ite,
    decList_omitList encMatchCondition _ decMatchCondition_enc,
    decList_omitList encService _ decService_enc,
    bind, Except.bind, pure, Except.pure]

theorem decHTTPProxySpec_enc (x : HTTPProxySpec) :
    decObj decHTTPProxySpecFields (encHTTPProxySpec x) = .ok x := by
  have hn : ∀ a, encVirtualHost a ≠ .null := fun a h => by cases h
  simp [encHTTPProxySpec, decObj, decHTTPProxySpecFields, lookup_emit, lookup_cons_ite,
    decPtr_map encVirtualHost _ decVirtualHost_enc hn,
    decList_omitList encRoute _ decRoute_enc,
    bind, Except.bind, pure, Except.pure]

theorem decHTTPProxyStatus_enc (x : HTTPProxyStatus) :
    decObj decHTTPProxyStatusFields (encHTTPProxyStatus x) = .ok x := by
  simp [encHTTPProxyStatus, decObj, decHTTPProxyStatusFields, lookup_emit, lookup_cons_ite,
    bind, Except.bind, pure, Except.pure]

theorem decStruct_some_obj {α : Type} (f : List (String × Value) → Except Err α)
    (kvs : List (String × Value)) :
    decStruct f (some (.obj kvs)) = decObj f (.obj kvs) := rfl

/-- The converter decodes what it encoded. -/
theorem fromUnstructured_toUnstructured (x : HTTPProxy) :
    (toUnstructured x).bind fromUnstructured = .ok x := by
  have h1 := decObjectMetaFields_enc x.ObjectMeta
  have h2 := decHTTPProxySpec_enc x.Spec
  have h3 := decHTTPProxyStatus_enc x.Status
  simp only [encObjectMeta, encHTTPProxySpec, encHTTPProxyStatus] at h1 h2 h3
  simp [toUnstructured, fromUnstructured, lookup_emit, lookup_cons_ite, decStruct_some_obj,
    encObjectMeta, encHTTPProxySpec, encHTTPProxyStatus, h1, h2, h3,
    bind, Except.bind, pure, Except.pure]

/-- Decoding the encoding of `x` gives `x` with the group, version and kind stamped. -/
theorem HTTPProxyFromUnstructured_ToUnstructured (x : HTTPProxy) :
    x.ToUnstructured.bind HTTPProxyFromUnstructured = .ok x.stamped := by
  have h := fromUnstructured_toUnstructured x.stamped
  simp only [HTTPProxy.ToUnstructured, HTTPProxyFromUnstructured]
  cases ht : toUnstructured x.stamped with
  | error e => simp [toUnstructured] at ht
  | ok m =>
    rw [ht] at h
    simp only [Except.bind] at h ⊢
    simp only [HTTPProxyFromUnstructured, h]

/-! ## The builder -/

/-- C9: the desired spec has the challenge's DNS name as virtual host FQDN and exactly
one route, with exactly one condition whose prefix is the well-known ACME path followed
by the token, exactly one service with the given name on the solver port, and
`PermitInsecure` set; every other field holds its zero value, and the result is the same
for a challenge that carries nothing but the DNS name and the token. -/
theorem createHTTPProxySpec_shape (D : Deps) (ch : Challenge) (svcName : String) :
    (∃ vh, (createHTTPProxySpec D ch svcName).VirtualHost = some vh ∧
      vh.Fqdn = ch.Spec.DNSName ∧ vh.TLS = none) ∧
    (∃ r c sv, (createHTTPProxySpec D ch svcName).Routes = [r] ∧
      r.Conditions = [c] ∧ c.Prefix = "/.well-known/acme-challenge/" ++ ch.Spec.Token ∧
      r.Services = [sv] ∧ sv.Name = svcName ∧ sv.Port = D.acmeSolverListenPort ∧
      sv.Weight = 0 ∧ sv.Protocol = none ∧
      r.PermitInsecure = true ∧ r.EnableWebsockets = false) ∧
    (createHTTPProxySpec D ch svcName).IngressClassName = "" ∧
    createHTTPProxySpec D ch svcName =
      createHTTPProxySpec D { Spec := { DNSName := ch.Spec.DNSName, Token := ch.Spec.Token } }
        svcName ∧
    (∀ r ∈ (createHTTPProxySpec D { Spec := { DNSName := "example.com", Token := "tok123" } }
        "svc").Routes,
      r.Conditions = [{ Prefix := "/.well-known/acme-challenge/tok123" }] ∧
      r.Services = [{ Name := "svc", Port := D.acmeSolverListenPort }]) := by
  refine ⟨⟨_, rfl, rfl, rfl⟩, ⟨_, _, _, rfl, rfl, rfl, rfl, rfl, rfl, rfl, rfl, rfl, rfl⟩,
    rfl, rfl, ?_⟩
  intro r hr
  simp only [createHTTPProxySpec, List.mem_singleton] at hr
  subst hr
  exact ⟨by simp [challengePath], rfl⟩

/-! ## The codec with nil told apart from empty -/

theorem traverse_map_of {α β : Type} (enc : α → β) (dec : β → Except Err α) (g : α → α)
    (h : ∀ a, dec (enc a) = .ok (g a)) (xs : List α) :
    traverse dec (xs.map enc) = .ok (xs.map g) := by
  induction xs with
  | nil => rfl
  | cons a as ih => simp [traverse, h, ih]

theorem decColl_omitList {α : Type} (enc : α → Value) (dec : Value → Except Err α)
    (g : α → α) (h : ∀ a, dec (enc a) = .ok (g a)) (c : Coll α) :
    decColl dec (omitList (c.elems.map enc)) = .ok (c.map g).normalized := by
  rcases c with _ | l
  · rfl
  · cases l with
    | nil => rfl
    | cons a as =>
      have := traverse_map_of enc dec g h (a :: as)
      simp only [List.map_cons] at this
      simp [Coll.elems, omitList, decColl, this, Coll.map, Coll.normalized]

theorem Coll.map_id' {α : Type} (c : Coll α) : c.map (fun a => a) = c := by
  cases c <;> simp [Coll.map]

theorem decMapColl_omitMap (c : Coll (String × String)) :
    decMapColl (omitMap c.elems) = .ok c.normalized := by
  rcases c with _ | l
  · rfl
  · cases l with
    | nil => rfl
    | cons e t =>
      have := traverse_map_of (fun kv : String × String => (kv.1, Value.str kv.2))
        decEntryOrNull (fun a => a) (fun a => rfl) (e :: t)
      simp only [List.map_cons, List.map_id'] at this
      simp [Coll.elems, omitMap, decMapColl, this, Coll.normalized]

theorem exact_decObjectMeta_enc (x : Exact.ObjectMeta) :
    decObj Exact.decObjectMetaFields (Exact.encObjectMeta x) = .ok x.normalized := by
  have ho := decColl_omitList encOwnerReference (decElem decOwnerReferenceFields)
    (fun a => a) decOwnerReference_enc x.OwnerReferences
  rw [Coll.map_id'] at ho
  simp [Exact.encObjectMeta, decObj, Exact.decObjectMetaFields, lookup_emit, lookup_cons_ite,
    decMapColl_omitMap, ho, Exact.ObjectMeta.normalized, bind, Except.bind, pure, Except.pure]

theorem exact_decRoute_enc (x : Exact.Route) :
    decElem Exact.decRouteFields (Exact.encRoute x) = .ok x.normalized := by
  have hc := decColl_omitList encMatchCondition (decElem decMatchConditionFields)
    (fun a => a) decMatchCondition_enc x.Conditions
  have hs := decColl_omitList encService (decElem decServiceFields)
    (fun a => a) decService_enc x.Services
  rw [Coll.map_id'] at hc hs
  simp [Exact.encRoute, decElem, decStruct, Exact.decRouteFields, lookup_emit, lookup_cons_ite,
    hc, hs, Exact.Route.normalized, bind, Except.bind, pure, Except.pure]

theorem exact_decHTTPProxySpec_enc (x : Exact.HTTPProxySpec) :
    decObj Exact.decHTTPProxySpecFields (Exact.encHTTPProxySpec x) = .ok x.normalized := by
  have hn : ∀ a, encVirtualHost a ≠ .null := fun a h => by cases h
  have hr := decColl_omitList Exact.encRoute (decElem Exact.decRouteFields)
    Exact.Route.normalized exact_decRoute_enc x.Routes
  simp [Exact.encHTTPProxySpec, decObj, Exact.decHTTPProxySpecFields, lookup_emit,
    lookup_cons_ite, decPtr_map encVirtualHost _ decVirtualHost_enc hn, hr,
    Exact.HTTPProxySpec.normalized, bind, Except.bind, pure, Except.pure]

/-- The converter decodes what it encoded, up to nil for empty. -/
theorem exact_fromUnstructured_toUnstructured (x : Exact.HTTPProxy) :
    (Exact.toUnstructured x).bind Exact.fromUnstructured = .ok x.normalized := by
  have h1 := exact_decObjectMeta_enc x.ObjectMeta
  have h2 := exact_decHTTPProxySpec_enc x.Spec
  have h3 := decHTTPProxyStatus_enc x.Status
  simp only [Exact.encObjectMeta, Exact.encHTTPProxySpec, encHTTPProxyStatus] at h1 h2 h3
  simp [Exact.toUnstructured, Exact.fromUnstructured, lookup_emit, lookup_cons_ite,
    decStruct_some_obj, Exact.encObjectMeta, Exact.encHTTPProxySpec, encHTTPProxyStatus,
    h1, h2, h3, Exact.HTTPProxy.normalized, bind, Except.bind, pure, Except.pure]

theorem Coll.elems_normalized {α : Type} (c : Coll α) : c.normalized.elems = c.elems := by
  rcases c with _ | l
  · rfl
  · cases l <;> rfl

theorem Coll.elems_map {α β : Type} (f : α → β) (c : Coll α) :
    (c.map f).elems = c.elems.map f := by
  cases c <;> rfl

/-- Normalizing changes a collection exactly when it is allocated without elements. -/
theorem Coll.normalized_eq_self {α : Type} (c : Coll α) : c.normalized = c ↔ c ≠ .mk [] := by
  rcases c with _ | l
  · simp [Coll.normalized]
  · cases l <;> simp [Coll.normalized]

theorem exact_route_forget_normalized (x : Exact.Route) : x.normalized.forget = x.forget := by
  simp [Exact.Route.normalized, Exact.Route.forget, Coll.elems_normalized]

theorem exact_forget_normalized (x : Exact.HTTPProxy) : x.normalized.forget = x.forget := by
  simp [Exact.HTTPProxy.normalized, Exact.HTTPProxy.forget, Exact.ObjectMeta.normalized,
    Exact.ObjectMeta.forget, Exact.HTTPProxySpec.normalized, Exact.HTTPProxySpec.forget,
    Coll.elems_normalized, Coll.elems_map, exact_route_forget_normalized]

/-- Both embeddings of `ToUnstructured` give the same generic object: encoding reads a
slice or map through its elements. -/
theorem exact_ToUnstructured_forget (x : Exact.HTTPProxy) :
    x.ToUnstructured = x.forget.ToUnstructured := by
  have hr : ∀ l : List Exact.Route,
      l.map Exact.encRoute = (l.map Exact.Route.forget).map encRoute := by
    intro l
    rw [List.map_map]
    rfl
  simp only [Exact.HTTPProxy.ToUnstructured, HTTPProxy.ToUnstructured, Exact.toUnstructured,
    toUnstructured, Exact.encHTTPProxySpec, encHTTPProxySpec, hr]
  rfl

theorem exact_decode_encoded (x : Exact.HTTPProxy) :
    ∃ u, x.ToUnstructured = .ok u ∧
      Exact.HTTPProxyFromUnstructured u = .ok x.stamped.normalized := by
  have h := exact_fromUnstructured_toUnstructured x.stamped
  cases ht : Exact.toUnstructured x.stamped with
  | error e => simp [Exact.toUnstructured] at ht
  | ok m =>
    rw [ht] at h
    simp only [Except.bind] at h
    refine ⟨{ Object := m }, ?_, ?_⟩
    · simp only [Exact.HTTPProxy.ToUnstructured, ht]
    · simp only [Exact.HTTPProxyFromUnstructured, h]

/-- C8 fails as stated.  An object named `proxy` whose type and kind are empty before
encoding decodes with kind `HTTPProxy` and API version `projectcontour.io/v1`.  The
object the test "should not modify correct HTTPProxy" encodes, taken with the type and
kind already stamped, has owner references allocated without elements and decodes with
nil owner references.  Neither decoding is the object held before encoding. -/
theorem roundtrip_differs :
    (∃ u, ({ ObjectMeta := { Name := "proxy" } } : Exact.HTTPProxy).ToUnstructured = .ok u ∧
      Exact.HTTPProxyFromUnstructured u =
        .ok { TypeMeta := { Kind := "HTTPProxy", APIVersion := "projectcontour.io/v1" },
              ObjectMeta := { Name := "proxy" } } ∧
      Exact.HTTPProxyFromUnstructured u ≠ .ok { ObjectMeta := { Name := "proxy" } }) ∧
    (∃ u y, Exact.testHTTPProxy.stamped.ToUnstructured = .ok u ∧
      Exact.HTTPProxyFromUnstructured u = .ok y ∧
      Exact.testHTTPProxy.stamped.ObjectMeta.OwnerReferences = .mk [] ∧
      y.ObjectMeta.OwnerReferences = .nil ∧
      y.TypeMeta = Exact.testHTTPProxy.stamped.TypeMeta ∧
      y ≠ Exact.testHTTPProxy.stamped) := by
  refine ⟨⟨_, rfl, rfl, ?_⟩, ?_⟩
  · intro h
    have ht := congrArg (fun r => match r with
      | Except.ok (y : Exact.HTTPProxy) => y.TypeMeta.Kind
      | Except.error _ => "") h
    revert ht
    decide
  · obtain ⟨u, hu, hd⟩ := exact_decode_encoded Exact.testHTTPProxy.stamped
    refine ⟨u, _, hu, hd, rfl, rfl, rfl, ?_⟩
    decide

/-- C8 (amended): encoding succeeds and decoding the encoding gives the object with
kind `HTTPProxy` and API version `projectcontour.io/v1` stamped on it and with every
slice or map that was allocated without elements replaced by nil; apart from nil for
empty, metadata, spec and status are unchanged.  This is the object held before
encoding exactly when that one already carried the stamp and held no slice or map
allocated without elements. -/
theorem roundtrip_up_to_stamp_and_nil (x : Exact.HTTPProxy) :
    (∃ u, x.ToUnstructured = .ok u ∧
      Exact.HTTPProxyFromUnstructured u = .ok x.stamped.normalized) ∧
    x.stamped.normalized.TypeMeta =
      { Kind := "HTTPProxy", APIVersion := "projectcontour.io/v1" } ∧
    x.stamped.normalized.forget.ObjectMeta = x.forget.ObjectMeta ∧
    x.stamped.normalized.forget.Spec = x.forget.Spec ∧
    x.stamped.normalized.Status = x.Status ∧
    (x.stamped.normalized = x ↔
      x.TypeMeta = { Kind := "HTTPProxy", APIVersion := "projectcontour.io/v1" } ∧
      x.normalized = x) := by
  have hst : x.stamped.TypeMeta = { Kind := "HTTPProxy", APIVersion := "projectcontour.io/v1" } := by
    simp only [Exact.HTTPProxy.stamped, TypeMeta.SetGroupVersionKind]
    decide
  have hf := exact_forget_normalized x.stamped
  refine ⟨exact_decode_encoded x, hst, ?_, ?_, rfl, ?_⟩
  · rw [hf]; rfl
  · rw [hf]; rfl
  · obtain ⟨t, o, sp, stt⟩ := x
    simp only [Exact.HTTPProxy.stamped, Exact.HTTPProxy.normalized] at hst ⊢
    simp only [Exact.HTTPProxy.mk.injEq, hst, true_and, and_true]
    constructor
    · rintro ⟨h1, h2, h3⟩
      exact ⟨h1.symm, h2, h3⟩
    · rintro ⟨h1, h2, h3⟩
      exact ⟨h1.symm, h2, h3⟩

/-! ## The orchestrator over an arbitrary store -/

theorem getHTTPProxy_single {σ : Type} (s : Solver σ) (st : σ) (ch : Challenge)
    (hp : Unstructured) (httpProxy : HTTPProxy)
    (hlist : s.store.list st ch.ObjectMeta.Namespace (s.deps.podLabels ch) = .ok [hp])
    (hdec : HTTPProxyFromUnstructured hp = .ok httpProxy) :
    s.getHTTPProxy st ch = ⟨.ok (some httpProxy), st, []⟩ := by
  simp [Solver.getHTTPProxy, hlist, hdec]

theorem getHTTPProxy_none {σ : Type} (s : Solver σ) (st : σ) (ch : Challenge)
    (hlist : s.store.list st ch.ObjectMeta.Namespace (s.deps.podLabels ch) = .ok []) :
    s.getHTTPProxy st ch = ⟨.ok none, st, []⟩ := by
  simp [Solver.getHTTPProxy, hlist]

theorem ToUnstructured_ok (x : HTTPProxy) : x.ToUnstructured = .ok x.encoded := rfl

theorem decode_encoded (x : HTTPProxy) (u : Unstructured) (h : x.ToUnstructured = .ok u) :
    HTTPProxyFromUnstructured u = .ok x.stamped := by
  have hr := HTTPProxyFromUnstructured_ToUnstructured x
  rw [h] at hr
  simpa [Except.bind] using hr

/-- C1: when the lister returns exactly one object, it decodes, and its spec equals the
desired spec, `ensureHTTPProxy` issues no write, leaves the store state as it was and
returns the decoded object with no error. -/
theorem ensureHTTPProxy_noop {σ : Type} (s : Solver σ) (st : σ) (ch : Challenge)
    (svcName : String) (hp : Unstructured) (httpProxy : HTTPProxy)
    (hlist : s.store.list st ch.ObjectMeta.Namespace (s.deps.podLabels ch) = .ok [hp])
    (hdec : HTTPProxyFromUnstructured hp = .ok httpProxy)
    (hspec : httpProxy.Spec = createHTTPProxySpec s.deps ch svcName) :
    (s.ensureHTTPProxy st ch svcName).calls = [] ∧
    (s.ensureHTTPProxy st ch svcName).result = .ok httpProxy ∧
    (s.ensureHTTPProxy st ch svcName).state = st := by
  simp [Solver.ensureHTTPProxy, getHTTPProxy_single s st ch hp httpProxy hlist hdec,
    Solver.checkAndUpdateHTTPProxy, hspec]

theorem checkAndUpdate_drift {σ : Type} (s : Solver σ) (st : σ) (ch : Challenge)
    (svcName : String) (httpProxy : HTTPProxy)
    (hspec : httpProxy.Spec ≠ createHTTPProxySpec s.deps ch svcName) :
    (s.checkAndUpdateHTTPProxy st ch svcName httpProxy).calls =
      [Call.update HTTPProxyGvr ch.ObjectMeta.Namespace
        ({ httpProxy with Spec := createHTTPProxySpec s.deps ch svcName } : HTTPProxy).encoded] ∧
    (s.checkAndUpdateHTTPProxy st ch svcName httpProxy).state =
      (s.store.update st HTTPProxyGvr ch.ObjectMeta.Namespace
        ({ httpProxy with Spec := createHTTPProxySpec s.deps ch svcName } : HTTPProxy).encoded).2 ∧
    (s.checkAndUpdateHTTPProxy st ch svcName httpProxy).result =
      match (s.store.update st HTTPProxyGvr ch.ObjectMeta.Namespace
        ({ httpProxy with Spec := createHTTPProxySpec s.deps ch svcName } : HTTPProxy).encoded).1 with
      | .error err => .error (.store err)
      | .ok val => HTTPProxyFromUnstructured val := by
  simp only [Solver.checkAndUpdateHTTPProxy, hspec, if_false, ToUnstructured_ok]
  split
  · rename_i h; simp [h]
  · rename_i val st' h
    simp only [h]
    cases hd : HTTPProxyFromUnstructured val <;> simp

theorem ensure_of_get_some {σ : Type} (s : Solver σ) (st : σ) (ch : Challenge)
    (svcName : String) (httpProxy : HTTPProxy)
    (hget : s.getHTTPProxy st ch = ⟨.ok (some httpProxy), st, []⟩) :
    s.ensureHTTPProxy st ch svcName = s.checkAndUpdateHTTPProxy st ch svcName httpProxy := by
  simp only [Solver.ensureHTTPProxy, hget]
  rcases h : s.checkAndUpdateHTTPProxy st ch svcName httpProxy with ⟨r, st', calls⟩
  cases r <;> simp

/-- C2: when the lister returns exactly one object, it decodes, and its spec differs
from the desired spec, `ensureHTTPProxy` issues exactly one write, an `Update` in the
challenge's namespace.  The object submitted is the encoding of the located object with
its spec replaced by the desired spec: it decodes to an object with the located
object's metadata and status, the desired spec and the stamped type.  When the store
returns what was submitted, that object is the result. -/
theorem ensureHTTPProxy_update {σ : Type} (s : Solver σ) (st : σ) (ch : Challenge)
    (svcName : String) (hp : Unstructured) (httpProxy : HTTPProxy)
    (hlist : s.store.list st ch.ObjectMeta.Namespace (s.deps.podLabels ch) = .ok [hp])
    (hdec : HTTPProxyFromUnstructured hp = .ok httpProxy)
    (hspec : httpProxy.Spec ≠ createHTTPProxySpec s.deps ch svcName) :
    ∃ unstr submitted,
      ({ httpProxy with Spec := createHTTPProxySpec s.deps ch svcName } : HTTPProxy).ToUnstructured
        = .ok unstr ∧
      (s.ensureHTTPProxy st ch svcName).calls =
        [Call.update HTTPProxyGvr ch.ObjectMeta.Namespace unstr] ∧
      HTTPProxyFromUnstructured unstr = .ok submitted ∧
      submitted.ObjectMeta = httpProxy.ObjectMeta ∧
      submitted.Status = httpProxy.Status ∧
      submitted.Spec = createHTTPProxySpec s.deps ch svcName ∧
      (s.ensureHTTPProxy st ch svcName).state =
        (s.store.update st HTTPProxyGvr ch.ObjectMeta.Namespace unstr).2 ∧
      ((s.store.update st HTTPProxyGvr ch.ObjectMeta.Namespace unstr).1 = .ok unstr →
        (s.ensureHTTPProxy st ch svcName).result = .ok submitted ∧
        ∀ r, (s.ensureHTTPProxy st ch svcName).result = .ok r →
          r.Spec = createHTTPProxySpec s.deps ch svcName) := by
  have he := ensure_of_get_some s st ch svcName httpProxy
    (getHTTPProxy_single s st ch hp httpProxy hlist hdec)
  obtain ⟨hc, hs, hr⟩ := checkAndUpdate_drift s st ch svcName httpProxy hspec
  refine ⟨_, _, ToUnstructured_ok _, ?_, decode_encoded _ _ (ToUnstructured_ok _),
    rfl, rfl, rfl, ?_, ?_⟩
  · rw [he, hc]
  · rw [he, hs]
  · intro hret
    rw [he, hr, hret]
    have hd := decode_encoded _ _ (ToUnstructured_ok
      ({ httpProxy with Spec := createHTTPProxySpec s.deps ch svcName } : HTTPProxy))
    refine ⟨hd, ?_⟩
    intro r hr'
    simp only [hd] at hr'
    injection hr' with hr'
    rw [← hr']
    rfl

/-! ## The locator on more than one object -/

theorem deleteHTTPProxies_succeed {σ : Type} (s : Solver σ) (ns : String) (st : σ)
    (l : List Unstructured) (h : deletesSucceed s ns st l = true) :
    deleteHTTPProxies s ns st l = (none, stateAfterDeletes s ns st l, l.map (deleteCall ns)) := by
  induction l generalizing st with
  | nil => rfl
  | cons hp rest ih =>
    simp only [deletesSucceed] at h
    simp only [deleteHTTPProxies, stateAfterDeletes, List.map_cons, deleteCall]
    rcases hd : s.store.delete st HTTPProxyGvr ns hp.GetName with ⟨r, st'⟩
    rw [hd] at h
    cases r with
    | some e => simp at h
    | none =>
      simp only at h
      simp only [ih st' h, deleteCall]

theorem deleteHTTPProxies_fail {σ : Type} (s : Solver σ) (ns : String) (st : σ)
    (pre post : List Unstructured) (x : Unstructured) (e : String)
    (hpre : deletesSucceed s ns st pre = true)
    (hfail : (s.store.delete (stateAfterDeletes s ns st pre) HTTPProxyGvr ns x.GetName).1 = some e) :
    deleteHTTPProxies s ns st (pre ++ x :: post) =
      (some e, (s.store.delete (stateAfterDeletes s ns st pre) HTTPProxyGvr ns x.GetName).2,
        (pre ++ [x]).map (deleteCall ns)) := by
  induction pre generalizing st with
  | nil =>
    simp only [stateAfterDeletes] at hfail
    simp only [List.nil_append, deleteHTTPProxies, stateAfterDeletes, List.map_cons,
      List.map_nil, deleteCall]
    rcases hd : s.store.delete st HTTPProxyGvr ns x.GetName with ⟨r, st'⟩
    rw [hd] at hfail
    simp only at hfail
    subst hfail
    rfl
  | cons hp rest ih =>
    simp only [deletesSucceed] at hpre
    simp only [stateAfterDeletes] at hfail
    simp only [List.cons_append, deleteHTTPProxies, stateAfterDeletes, List.map_cons, deleteCall]
    rcases hd : s.store.delete st HTTPProxyGvr ns hp.GetName with ⟨r, st'⟩
    rw [hd] at hpre hfail
    cases r with
    | some e' => simp at hpre
    | none =>
      simp only at hpre hfail
      have := ih st' hpre hfail
      simp only [List.append_eq] at this ⊢
      rw [this]

theorem deletesSucceed_false {σ : Type} (s : Solver σ) (ns : String) (st : σ)
    (l : List Unstructured) (h : deletesSucceed s ns st l = false) :
    ∃ pre x post e, l = pre ++ x :: post ∧ deletesSucceed s ns st pre = true ∧
      (s.store.delete (stateAfterDeletes s ns st pre) HTTPProxyGvr ns x.GetName).1 = some e := by
  induction l generalizing st with
  | nil => simp [deletesSucceed] at h
  | cons hp rest ih =>
    simp only [deletesSucceed] at h
    rcases hd : s.store.delete st HTTPProxyGvr ns hp.GetName with ⟨r, st'⟩
    rw [hd] at h
    cases r with
    | some e =>
      exact ⟨[], hp, rest, e, rfl, rfl, by simp [stateAfterDeletes, hd]⟩
    | none =>
      simp only at h
      obtain ⟨pre, x, post, e, hl, hpre, hf⟩ := ih st' h
      refine ⟨hp :: pre, x, post, e, by simp [hl], ?_, ?_⟩
      · simp [deletesSucceed, hd, hpre]
      · simpa [stateAfterDeletes, hd] using hf

theorem getHTTPProxy_many {σ : Type} (s : Solver σ) (st : σ) (ch : Challenge)
    (first : Unstructured) (rest : List Unstructured)
    (hlist : s.store.list st ch.ObjectMeta.Namespace (s.deps.podLabels ch) = .ok (first :: rest))
    (hn : rest ≠ []) :
    s.getHTTPProxy st ch =
      ⟨match (deleteHTTPProxies s ch.ObjectMeta.Namespace st rest).1 with
        | some err => .error (.store err)
        | none => .error .multipleFound,
       (deleteHTTPProxies s ch.ObjectMeta.Namespace st rest).2.1,
       (deleteHTTPProxies s ch.ObjectMeta.Namespace st rest).2.2⟩ := by
  cases rest with
  | nil => exact absurd rfl hn
  | cons second rest =>
    simp only [Solver.getHTTPProxy, hlist]
    rcases hd : deleteHTTPProxies s ch.ObjectMeta.Namespace st (second :: rest) with ⟨r, st', calls⟩
    cases r <;> rfl

theorem ensure_of_get_error {σ : Type} (s : Solver σ) (st : σ) (ch : Challenge)
    (svcName : String) (err : Err) (h : (s.getHTTPProxy st ch).result = .error err) :
    (s.ensureHTTPProxy st ch svcName).result = .error err ∧
    (s.ensureHTTPProxy st ch svcName).calls = (s.getHTTPProxy st ch).calls ∧
    (s.ensureHTTPProxy st ch svcName).state = (s.getHTTPProxy st ch).state := by
  rcases hg : s.getHTTPProxy st ch with ⟨r, st', calls⟩
  rw [hg] at h
  simp only at h
  subst h
  simp [Solver.ensureHTTPProxy, hg]

/-- C5: when the lister returns more than one object and every deletion succeeds,
`getHTTPProxy` issues one `Delete` for the name of each listed object but the first, in
list order, and nothing else, and returns the multiple-found error;
`ensureHTTPProxy` returns that error with the same calls, none a `Create` or `Update`. -/
theorem getHTTPProxy_deletes_duplicates {σ : Type} (s : Solver σ) (st : σ) (ch : Challenge)
    (svcName : String) (first : Unstructured) (rest : List Unstructured)
    (hlist : s.store.list st ch.ObjectMeta.Namespace (s.deps.podLabels ch) = .ok (first :: rest))
    (hn : rest ≠ [])
    (hdel : deletesSucceed s ch.ObjectMeta.Namespace st rest = true) :
    (s.getHTTPProxy st ch).calls = rest.map (deleteCall ch.ObjectMeta.Namespace) ∧
    (s.getHTTPProxy st ch).calls.length = (first :: rest).length - 1 ∧
    (s.getHTTPProxy st ch).result = .error .multipleFound ∧
    (first.GetName ∉ rest.map Unstructured.GetName →
      ∀ c ∈ (s.getHTTPProxy st ch).calls,
        c ≠ Call.delete HTTPProxyGvr ch.ObjectMeta.Namespace first.GetName) ∧
    (s.ensureHTTPProxy st ch svcName).result = .error .multipleFound ∧
    (s.ensureHTTPProxy st ch svcName).calls = rest.map (deleteCall ch.ObjectMeta.Namespace) ∧
    (∀ c ∈ (s.ensureHTTPProxy st ch svcName).calls, c.isCreate = false ∧ c.isUpdate = false) := by
  have hg := getHTTPProxy_many s st ch first rest hlist hn
  rw [deleteHTTPProxies_succeed s _ st rest hdel] at hg
  have hres : (s.getHTTPProxy st ch).result = .error .multipleFound := by rw [hg]
  have hcalls : (s.getHTTPProxy st ch).calls = rest.map (deleteCall ch.ObjectMeta.Namespace) := by
    rw [hg]
  obtain ⟨he1, he2, _⟩ := ensure_of_get_error s st ch svcName _ hres
  refine ⟨hcalls, by simp [hcalls], hres, ?_, he1, by rw [he2, hcalls], ?_⟩
  · intro hne c hc heq
    rw [hcalls, List.mem_map] at hc
    obtain ⟨hp, hmem, hpc⟩ := hc
    rw [heq] at hpc
    simp only [deleteCall, Call.delete.injEq, true_and] at hpc
    exact hne (List.mem_map.mpr ⟨hp, hmem, hpc⟩)
  · intro c hc
    rw [he2, hcalls, List.mem_map] at hc
    obtain ⟨hp, _, hpc⟩ := hc
    rw [← hpc]
    exact ⟨rfl, rfl⟩

/-- C6 (amended): when the lister returns more than one object, `getHTTPProxy` returns
an error and never an object: the multiple-found error when every deletion succeeds,
and the store's error of the first failing deletion otherwise. -/
theorem getHTTPProxy_many_errors {σ : Type} (s : Solver σ) (st : σ) (ch : Challenge)
    (first : Unstructured) (rest : List Unstructured)
    (hlist : s.store.list st ch.ObjectMeta.Namespace (s.deps.podLabels ch) = .ok (first :: rest))
    (hn : rest ≠ []) :
    (∃ err, (s.getHTTPProxy st ch).result = .error err) ∧
    (deletesSucceed s ch.ObjectMeta.Namespace st rest = true →
      (s.getHTTPProxy st ch).result = .error .multipleFound) ∧
    (deletesSucceed s ch.ObjectMeta.Namespace st rest = false →
      ∃ pre x post e, rest = pre ++ x :: post ∧
        deletesSucceed s ch.ObjectMeta.Namespace st pre = true ∧
        (s.store.delete (stateAfterDeletes s ch.ObjectMeta.Namespace st pre) HTTPProxyGvr
          ch.ObjectMeta.Namespace x.GetName).1 = some e ∧
        (s.getHTTPProxy st ch).result = .error (.store e)) := by
  have hg := getHTTPProxy_many s st ch first rest hlist hn
  have hok : deletesSucceed s ch.ObjectMeta.Namespace st rest = true →
      (s.getHTTPProxy st ch).result = .error .multipleFound := by
    intro hdel
    rw [hg, deleteHTTPProxies_succeed s _ st rest hdel]
  have hfail : deletesSucceed s ch.ObjectMeta.Namespace st rest = false →
      ∃ pre x post e, rest = pre ++ x :: post ∧
        deletesSucceed s ch.ObjectMeta.Namespace st pre = true ∧
        (s.store.delete (stateAfterDeletes s ch.ObjectMeta.Namespace st pre) HTTPProxyGvr
          ch.ObjectMeta.Namespace x.GetName).1 = some e ∧
        (s.getHTTPProxy st ch).result = .error (.store e) := by
    intro hdel
    obtain ⟨pre, x, post, e, hl, hpre, hf⟩ := deletesSucceed_false s _ st rest hdel
    refine ⟨pre, x, post, e, hl, hpre, hf, ?_⟩
    rw [hg, hl, deleteHTTPProxies_fail s _ st pre post x e hpre hf]
  refine ⟨?_, hok, hfail⟩
  cases hdel : deletesSucceed s ch.ObjectMeta.Namespace st rest with
  | true => exact ⟨_, hok hdel⟩
  | false =>
    obtain ⟨_, _, _, e, _, _, _, hr⟩ := hfail hdel
    exact ⟨_, hr⟩

/-- C7: when the lister returns more than one object and a deletion fails after the
deletions before it succeeded, `getHTTPProxy` returns the store's error, has issued the
`Delete` calls up to and including the failing one and no other call, and leaves the
store in the state the failing call left; `ensureHTTPProxy` returns the same error with
the same calls, none a `Create` or `Update`. -/
theorem getHTTPProxy_delete_failure {σ : Type} (s : Solver σ) (st : σ) (ch : Challenge)
    (svcName : String) (first x : Unstructured) (pre post : List Unstructured) (e : String)
    (hlist : s.store.list st ch.ObjectMeta.Namespace (s.deps.podLabels ch) =
      .ok (first :: (pre ++ x :: post)))
    (hpre : deletesSucceed s ch.ObjectMeta.Namespace st pre = true)
    (hfail : (s.store.delete (stateAfterDeletes s ch.ObjectMeta.Namespace st pre) HTTPProxyGvr
      ch.ObjectMeta.Namespace x.GetName).1 = some e) :
    (s.getHTTPProxy st ch).result = .error (.store e) ∧
    (s.getHTTPProxy st ch).calls = (pre ++ [x]).map (deleteCall ch.ObjectMeta.Namespace) ∧
    (s.getHTTPProxy st ch).state =
      (s.store.delete (stateAfterDeletes s ch.ObjectMeta.Namespace st pre) HTTPProxyGvr
        ch.ObjectMeta.Namespace x.GetName).2 ∧
    (s.ensureHTTPProxy st ch svcName).result = .error (.store e) ∧
    (s.ensureHTTPProxy st ch svcName).calls =
      (pre ++ [x]).map (deleteCall ch.ObjectMeta.Namespace) ∧
    (s.ensureHTTPProxy st ch svcName).state =
      (s.store.delete (stateAfterDeletes s ch.ObjectMeta.Namespace st pre) HTTPProxyGvr
        ch.ObjectMeta.Namespace x.GetName).2 ∧
    (∀ c ∈ (s.ensureHTTPProxy st ch svcName).calls, c.isCreate = false ∧ c.isUpdate = false) := by
  have hg := getHTTPProxy_many s st ch first (pre ++ x :: post) hlist (by simp)
  rw [deleteHTTPProxies_fail s _ st pre post x e hpre hfail] at hg
  have hres : (s.getHTTPProxy st ch).result = .error (.store e) := by rw [hg]
  have hcalls : (s.getHTTPProxy st ch).calls =
      (pre ++ [x]).map (deleteCall ch.ObjectMeta.Namespace) := by rw [hg]
  have hstate : (s.getHTTPProxy st ch).state =
      (s.store.delete (stateAfterDeletes s ch.ObjectMeta.Namespace st pre) HTTPProxyGvr
        ch.ObjectMeta.Namespace x.GetName).2 := by rw [hg]
  obtain ⟨he1, he2, he3⟩ := ensure_of_get_error s st ch svcName _ hres
  refine ⟨hres, hcalls, hstate, he1, by rw [he2, hcalls], by rw [he3, hstate], ?_⟩
  intro c hc
  rw [he2, hcalls, List.mem_map] at hc
  obtain ⟨hp, _, hpc⟩ := hc
  rw [← hpc]
  exact ⟨rfl, rfl⟩

/-! ## The in-memory store -/

theorem lookup_setField_same (k : String) (v : Value) (l : List (String × Value)) :
    (setField k v l).lookup k = some v := by
  induction l with
  | nil => simp [setField, lookup_cons_ite]
  | cons e t ih =>
    obtain ⟨k', v'⟩ := e
    by_cases h : k' = k
    · simp [setField, h, lookup_cons_ite]
    · have h' : ¬ k = k' := fun hh => h hh.symm
      simp [setField, h, lookup_cons_ite, h', ih]

theorem lookup_setField_ne (k k' : String) (v : Value) (l : List (String × Value))
    (hne : k' ≠ k) : (setField k v l).lookup k' = l.lookup k' := by
  induction l with
  | nil => simp [setField, lookup_cons_ite, hne]
  | cons e t ih =>
    obtain ⟨k₀, v₀⟩ := e
    by_cases h : k₀ = k
    · subst h
      simp [setField, lookup_cons_ite, hne]
    · simp [setField, h, lookup_cons_ite, ih]

theorem decStr_ok (ov : Option Value) (s : String) (h : decStr ov = .ok s) :
    stringOf ov = s := by
  rcases ov with _ | v
  · simp only [decStr] at h; injection h
  · cases v <;>
      (simp only [decStr] at h; injection h)

theorem decMap_ok (ov : Option Value) (l : List (String × String)) (h : decMap ov = .ok l) :
    stringMapOf ov = l := by
  rcases ov with _ | v
  · simp only [decMap] at h; injection h
  · cases v <;>
      first
      | (simp only [decMap] at h; simp only [stringMapOf, h]; done)
      | (simp only [decMap] at h; injection h)

theorem decObjectMetaFields_ok (kvs : List (String × Value)) (om : ObjectMeta)
    (h : decObjectMetaFields kvs = .ok om) :
    decStr (kvs.lookup "name") = .ok om.Name ∧
    decStr (kvs.lookup "generateName") = .ok om.GenerateName ∧
    decStr (kvs.lookup "namespace") = .ok om.Namespace ∧
    decMap (kvs.lookup "labels") = .ok om.Labels := by
  simp only [decObjectMetaFields, bind, Except.bind, pure, Except.pure] at h
  repeat' split at h
  all_goals cases h
  all_goals simp_all

theorem fromUnstructured_ok (m : List (String × Value)) (hp : HTTPProxy)
    (h : fromUnstructured m = .ok hp) :
    decStr (m.lookup "kind") = .ok hp.TypeMeta.Kind ∧
    decStr (m.lookup "apiVersion") = .ok hp.TypeMeta.APIVersion ∧
    decStruct decObjectMetaFields (m.lookup "metadata") = .ok hp.ObjectMeta ∧
    decStruct decHTTPProxySpecFields (m.lookup "spec") = .ok hp.Spec ∧
    decStruct decHTTPProxyStatusFields (m.lookup "status") = .ok hp.Status := by
  simp only [fromUnstructured, bind, Except.bind, pure, Except.pure] at h
  repeat' split at h
  all_goals cases h
  all_goals simp_all

theorem decObjectMetaFields_nil : decObjectMetaFields [] = .ok {} := rfl

theorem fromUnstructured_of_decode (u : Unstructured) (hp : HTTPProxy)
    (h : HTTPProxyFromUnstructured u = .ok hp) : fromUnstructured u.Object = .ok hp := by
  simp only [HTTPProxyFromUnstructured] at h
  split at h
  · cases h
  · rename_i x hx; cases h; exact hx

/-- The accessors of a generic object agree with its decoding. -/
theorem accessors_of_decode (u : Unstructured) (hp : HTTPProxy)
    (h : HTTPProxyFromUnstructured u = .ok hp) :
    u.GetName = hp.ObjectMeta.Name ∧ u.GetNamespace = hp.ObjectMeta.Namespace ∧
    u.GetLabels = hp.ObjectMeta.Labels ∧ u.GetGenerateName = hp.ObjectMeta.GenerateName := by
  obtain ⟨_, _, hm, _, _⟩ := fromUnstructured_ok _ _ (fromUnstructured_of_decode u hp h)
  simp only [Unstructured.GetName, Unstructured.GetNamespace, Unstructured.GetLabels,
    Unstructured.GetGenerateName, nestedString, nestedStringMap]
  rcases hl : u.Object.lookup "metadata" with _ | v
  · rw [hl] at hm
    simp only [decStruct, decObjectMetaFields_nil] at hm
    injection hm with hm
    rw [← hm]
    exact ⟨rfl, rfl, rfl, rfl⟩
  · rw [hl] at hm
    cases v with
    | null =>
      simp only [decStruct, decObjectMetaFields_nil] at hm
      injection hm with hm
      rw [← hm]
      exact ⟨rfl, rfl, rfl, rfl⟩
    | obj kvs =>
      simp only [decStruct] at hm
      obtain ⟨h1, h2, h3, h4⟩ := decObjectMetaFields_ok kvs _ hm
      exact ⟨decStr_ok _ _ h1, decStr_ok _ _ h3, decMap_ok _ _ h4, decStr_ok _ _ h2⟩
    | _ => simp [decStruct] at hm

theorem decObjectMetaFields_setName (kvs : List (String × Value)) (n : String)
    (om : ObjectMeta) (h : decObjectMetaFields kvs = .ok om) :
    decObjectMetaFields (setField "name" (.str n) kvs) = .ok { om with Name := n } := by
  simp only [decObjectMetaFields, bind, Except.bind, pure, Except.pure] at h
  simp only [decObjectMetaFields, bind, Except.bind, pure, Except.pure, lookup_setField_same,
    lookup_setField_ne "name" "generateName" _ _ (by decide),
    lookup_setField_ne "name" "namespace" _ _ (by decide),
    lookup_setField_ne "name" "uid" _ _ (by decide),
    lookup_setField_ne "name" "resourceVersion" _ _ (by decide),
    lookup_setField_ne "name" "labels" _ _ (by decide),
    lookup_setField_ne "name" "annotations" _ _ (by decide),
    lookup_setField_ne "name" "ownerReferences" _ _ (by decide), decStr_some_str]
  repeat' split at h
  all_goals cases h
  all_goals simp_all

theorem decode_SetName (u : Unstructured) (n : String) (hp : HTTPProxy)
    (h : HTTPProxyFromUnstructured u = .ok hp) :
    HTTPProxyFromUnstructured (u.SetName n) =
      .ok { hp with ObjectMeta := { hp.ObjectMeta with Name := n } } := by
  obtain ⟨h1, h2, h3, h4, h5⟩ := fromUnstructured_ok _ _ (fromUnstructured_of_decode u hp h)
  have hm : decObjectMetaFields
      (setField "name" (.str n)
        (match u.Object.lookup "metadata" with
         | some (.obj kvs) => kvs
         | _ => [])) = .ok { hp.ObjectMeta with Name := n } := by
    apply decObjectMetaFields_setName
    rcases hl : u.Object.lookup "metadata" with _ | v
    · rw [hl] at h3; exact h3
    · rw [hl] at h3
      cases v <;> first | exact h3 | simp [decStruct] at h3
  simp only [HTTPProxyFromUnstructured, Unstructured.SetName, fromUnstructured, bind,
    Except.bind, pure, Except.pure, lookup_setField_same,
    lookup_setField_ne "metadata" "kind" _ _ (by decide),
    lookup_setField_ne "metadata" "apiVersion" _ _ (by decide),
    lookup_setField_ne "metadata" "spec" _ _ (by decide),
    lookup_setField_ne "metadata" "status" _ _ (by decide), h1, h2, h4, h5,
    decStruct_some_obj, decObj, hm]

theorem GetName_SetName (u : Unstructured) (n : String) : (u.SetName n).GetName = n := by
  simp [Unstructured.GetName, Unstructured.SetName, nestedString, lookup_setField_same, stringOf]

theorem GetNamespace_SetName (u : Unstructured) (n : String) :
    (u.SetName n).GetNamespace = u.GetNamespace := by
  simp only [Unstructured.GetNamespace, Unstructured.SetName, nestedString, lookup_setField_same,
    lookup_setField_ne "name" "namespace" _ _ (by decide)]
  rcases hl : u.Object.lookup "metadata" with _ | v
  · rfl
  · cases v <;> rfl

theorem GetLabels_SetName (u : Unstructured) (n : String) :
    (u.SetName n).GetLabels = u.GetLabels := by
  simp only [Unstructured.GetLabels, Unstructured.SetName, nestedStringMap, lookup_setField_same,
    lookup_setField_ne "name" "labels" _ _ (by decide)]
  rcases hl : u.Object.lookup "metadata" with _ | v
  · rfl
  · cases v <;> rfl

theorem selectorMatches_self (l : List (String × String)) : selectorMatches l l = true := by
  simp [selectorMatches, List.all_eq_true]

theorem encoded_decode (x : HTTPProxy) : HTTPProxyFromUnstructured x.encoded = .ok x.stamped :=
  decode_encoded x x.encoded (ToUnstructured_ok x)

theorem encoded_accessors (x : HTTPProxy) :
    x.encoded.GetName = x.ObjectMeta.Name ∧ x.encoded.GetNamespace = x.ObjectMeta.Namespace ∧
    x.encoded.GetLabels = x.ObjectMeta.Labels ∧
    x.encoded.GetGenerateName = x.ObjectMeta.GenerateName :=
  accessors_of_decode x.encoded x.stamped (encoded_decode x)

theorem createHTTPProxy_outcome {σ : Type} (s : Solver σ) (st : σ) (ch : Challenge)
    (svcName : String) :
    (s.createHTTPProxy st ch svcName).calls =
      [Call.create HTTPProxyGvr ch.ObjectMeta.Namespace (newHTTPProxy s.deps ch svcName).encoded] ∧
    (s.createHTTPProxy st ch svcName).state =
      (s.store.create st HTTPProxyGvr ch.ObjectMeta.Namespace
        (newHTTPProxy s.deps ch svcName).encoded).2 ∧
    (s.createHTTPProxy st ch svcName).result =
      match (s.store.create st HTTPProxyGvr ch.ObjectMeta.Namespace
        (newHTTPProxy s.deps ch svcName).encoded).1 with
      | .error err => .error (.store err)
      | .ok val => HTTPProxyFromUnstructured val := by
  simp only [Solver.createHTTPProxy, ToUnstructured_ok]
  split
  · rename_i h; simp [h]
  · rename_i val st' h
    simp only [h]
    cases hd : HTTPProxyFromUnstructured val <;> simp

theorem ensure_of_get_none {σ : Type} (s : Solver σ) (st : σ) (ch : Challenge)
    (svcName : String) (hget : s.getHTTPProxy st ch = ⟨.ok none, st, []⟩) :
    s.ensureHTTPProxy st ch svcName = s.createHTTPProxy st ch svcName := by
  simp only [Solver.ensureHTTPProxy, hget]
  rcases h : s.createHTTPProxy st ch svcName with ⟨r, st', calls⟩
  cases r <;> simp

theorem memCreate_ok (m m' : MemState) (gvr : GroupVersionResource) (ns : String)
    (obj val : Unstructured) (h : memCreate m gvr ns obj = (.ok val, m')) :
    obj.GetNamespace = ns ∧ val = obj.SetName (m.nameFor obj) ∧
    m'.objects = m.objects ++ [val] := by
  unfold memCreate at h
  by_cases hns : obj.GetNamespace ≠ ns
  · rw [if_pos hns] at h; cases h
  · rw [if_neg hns] at h
    by_cases hhas : m.has ns (m.nameFor obj) = true
    · rw [if_pos hhas] at h; cases h
    · rw [if_neg hhas] at h
      injection h with h1 h2
      injection h1 with h1
      subst h1
      subst h2
      exact ⟨by simpa using hns, rfl, rfl⟩

theorem memList_eq (m : MemState) (ns : String) (sel : List (String × String))
    (l : List Unstructured) :
    memStore.list m ns sel = .ok l ↔ m.objects.filter (listed ns sel) = l := by
  simp [memStore, memList]

theorem newHTTPProxy_listed (D : Deps) (ch : Challenge) (svcName : String) (n : String) :
    listed ch.ObjectMeta.Namespace (D.podLabels ch)
      ((newHTTPProxy D ch svcName).encoded.SetName n) = true := by
  obtain ⟨_, h2, h3, _⟩ := encoded_accessors (newHTTPProxy D ch svcName)
  rw [listed, GetNamespace_SetName, GetLabels_SetName, h2, h3]
  simp [newHTTPProxy, selectorMatches_self]

theorem memEnsure_absent (D : Deps) (ch : Challenge) (svcName : String) (m : MemState)
    (hlist : memStore.list m ch.ObjectMeta.Namespace (D.podLabels ch) = .ok [])
    (r : HTTPProxy) (hres : ((memSolver D).ensureHTTPProxy m ch svcName).result = .ok r) :
    (memStore.create m HTTPProxyGvr ch.ObjectMeta.Namespace
      (newHTTPProxy D ch svcName).encoded).1 =
      .ok ((newHTTPProxy D ch svcName).encoded.SetName
        ("cm-acme-http-solver-" ++ toString m.seq)) ∧
    memStore.list ((memSolver D).ensureHTTPProxy m ch svcName).state
      ch.ObjectMeta.Namespace (D.podLabels ch) =
      .ok [(newHTTPProxy D ch svcName).encoded.SetName
        ("cm-acme-http-solver-" ++ toString m.seq)] ∧
    HTTPProxyFromUnstructured ((newHTTPProxy D ch svcName).encoded.SetName
        ("cm-acme-http-solver-" ++ toString m.seq)) = .ok r ∧
    r = { (newHTTPProxy D ch svcName).stamped with
          ObjectMeta := { (newHTTPProxy D ch svcName).ObjectMeta with
            Name := "cm-acme-http-solver-" ++ toString m.seq } } := by
  have hget := getHTTPProxy_none (memSolver D) m ch hlist
  have he := ensure_of_get_none (memSolver D) m ch svcName hget
  obtain ⟨hc, hs, hr⟩ := createHTTPProxy_outcome (memSolver D) m ch svcName
  rw [he, hr] at hres
  rw [he, hs]
  change (match (memCreate m HTTPProxyGvr ch.ObjectMeta.Namespace
    (newHTTPProxy D ch svcName).encoded).1 with
    | .error err => .error (.store err)
    | .ok val => HTTPProxyFromUnstructured val) = Except.ok r at hres
  change (memCreate m HTTPProxyGvr ch.ObjectMeta.Namespace
      (newHTTPProxy D ch svcName).encoded).1 = _ ∧
    memList (memCreate m HTTPProxyGvr ch.ObjectMeta.Namespace
      (newHTTPProxy D ch svcName).encoded).2 _ _ = _ ∧ _
  rcases hcr : memCreate m HTTPProxyGvr ch.ObjectMeta.Namespace
    (newHTTPProxy D ch svcName).encoded with ⟨res, m'⟩
  rw [hcr] at hres
  cases res with
  | error e => cases hres
  | ok val =>
    simp only at hres
    obtain ⟨_, hval, hobjs⟩ := memCreate_ok _ _ _ _ _ _ hcr
    obtain ⟨hn, _, _, hg⟩ := encoded_accessors (newHTTPProxy D ch svcName)
    have hname : m.nameFor (newHTTPProxy D ch svcName).encoded =
        "cm-acme-http-solver-" ++ toString m.seq := by
      rw [MemState.nameFor, hn, hg]
      rfl
    rw [hname] at hval
    have hempty : m.objects.filter (listed ch.ObjectMeta.Namespace (D.podLabels ch)) = [] :=
      (memList_eq _ _ _ _).mp hlist
    have hdec := decode_SetName _ ("cm-acme-http-solver-" ++ toString m.seq) _
      (encoded_decode (newHTTPProxy D ch svcName))
    subst hval
    refine ⟨rfl, ?_, hres, ?_⟩
    · simp only [memList, hobjs, List.filter_append, hempty, List.nil_append]
      simp [List.filter, newHTTPProxy_listed]
    · rw [hdec] at hres
      injection hres with hres
      rw [← hres]
      rfl

/-- C3: when the lister of the in-memory store returns no object for the challenge,
`ensureHTTPProxy` issues exactly one write, a `Create` in the challenge's namespace.
The object submitted decodes to an object in that namespace with no name and the
generate-name `cm-acme-http-solver-`, exactly the labels `podLabels ch`, the single
controller reference to the challenge and the desired spec.  The result is the decoding
of what the store returned, and when the call succeeds the store lists exactly one
object for the challenge, the created one under its generated name. -/
theorem ensureHTTPProxy_create (D : Deps) (ch : Challenge) (svcName : String) (m : MemState)
    (hlist : memStore.list m ch.ObjectMeta.Namespace (D.podLabels ch) = .ok []) :
    ∃ unstr created,
      ((memSolver D).ensureHTTPProxy m ch svcName).calls =
        [Call.create HTTPProxyGvr ch.ObjectMeta.Namespace unstr] ∧
      HTTPProxyFromUnstructured unstr = .ok created ∧
      created.ObjectMeta.Namespace = ch.ObjectMeta.Namespace ∧
      created.ObjectMeta.Name = "" ∧
      created.ObjectMeta.GenerateName = "cm-acme-http-solver-" ∧
      created.ObjectMeta.Labels = D.podLabels ch ∧
      created.ObjectMeta.OwnerReferences =
        [{ APIVersion := groupVersionString D.challengeGvk.Group D.challengeGvk.Version,
           Kind := D.challengeGvk.Kind, Name := ch.ObjectMeta.Name, UID := ch.ObjectMeta.UID,
           Controller := some true, BlockOwnerDeletion := some true }] ∧
      created.Spec = createHTTPProxySpec D ch svcName ∧
      ((memSolver D).ensureHTTPProxy m ch svcName).result =
        (match (memStore.create m HTTPProxyGvr ch.ObjectMeta.Namespace unstr).1 with
          | .error err => .error (.store err)
          | .ok val => HTTPProxyFromUnstructured val) ∧
      (∀ r, ((memSolver D).ensureHTTPProxy m ch svcName).result = .ok r →
        ∃ val, (memStore.create m HTTPProxyGvr ch.ObjectMeta.Namespace unstr).1 = .ok val ∧
          val.GetName = "cm-acme-http-solver-" ++ toString m.seq ∧
          memStore.list ((memSolver D).ensureHTTPProxy m ch svcName).state
            ch.ObjectMeta.Namespace (D.podLabels ch) = .ok [val] ∧
          HTTPProxyFromUnstructured val = .ok r ∧
          r = { created with ObjectMeta := { created.ObjectMeta with Name := val.GetName } }) := by
  have hget := getHTTPProxy_none (memSolver D) m ch hlist
  have he := ensure_of_get_none (memSolver D) m ch svcName hget
  obtain ⟨hc, hs, hr⟩ := createHTTPProxy_outcome (memSolver D) m ch svcName
  refine ⟨(newHTTPProxy D ch svcName).encoded, (newHTTPProxy D ch svcName).stamped,
    by rw [he, hc]; rfl, encoded_decode _, rfl, rfl, rfl, rfl, rfl, rfl, by rw [he, hr]; rfl, ?_⟩
  intro r hres
  obtain ⟨h1, h2, h3, h4⟩ := memEnsure_absent D ch svcName m hlist r hres
  refine ⟨_, h1, GetName_SetName _ _, h2, h3, ?_⟩
  rw [h4, GetName_SetName]
  rfl

/-! ## Replacing and removing stored objects -/

theorem filter_map_replace {α κ : Type} [DecidableEq κ] (key : α → κ) (p : α → Bool)
    (l : List α) (k : κ) (v : α) (hpv : p v = true)
    (hall : ∀ o ∈ l, key o = k → p o = true) :
    (l.map fun o => if key o = k then v else o).filter p =
      (l.filter p).map fun o => if key o = k then v else o := by
  induction l with
  | nil => rfl
  | cons o t ih =>
    have iht := ih (fun o' ho' => hall o' (List.mem_cons_of_mem _ ho'))
    by_cases hk : key o = k
    · have hpo : p o = true := hall o (List.mem_cons_self _ _) hk
      simp [List.filter_cons, hk, hpv, hpo, iht]
    · cases hpo : p o <;> simp [List.filter_cons, hk, hpo, iht]

theorem eq_of_key_eq {α κ : Type} (key : α → κ) (l : List α) (h : (l.map key).Nodup)
    (a b : α) (ha : a ∈ l) (hb : b ∈ l) (hk : key a = key b) : a = b :=
  List.inj_on_of_nodup_map h ha hb hk

theorem listed_namespace (ns : String) (sel : List (String × String)) (o : Unstructured)
    (h : listed ns sel o = true) : o.GetNamespace = ns := by
  simp only [listed, Bool.and_eq_true, beq_iff_eq] at h
  exact h.1

theorem listed_of_same (ns : String) (sel : List (String × String)) (o o' : Unstructured)
    (h : listed ns sel o = true) (hns : o'.GetNamespace = o.GetNamespace)
    (hl : o'.GetLabels = o.GetLabels) : listed ns sel o' = true := by
  simpa only [listed, hns, hl] using h

theorem has_of_mem (m : MemState) (o : Unstructured) (ho : o ∈ m.objects) :
    m.has o.GetNamespace o.GetName = true := by
  simp only [MemState.has, List.any_eq_true]
  exact ⟨o, ho, by simp [objectKey]⟩

theorem mem_of_filter_eq_cons {α : Type} (p : α → Bool) (l t : List α) (a : α)
    (h : l.filter p = a :: t) : a ∈ l ∧ p a = true := by
  have : a ∈ l.filter p := by rw [h]; exact List.mem_cons_self _ _
  exact List.mem_filter.mp this

/-- On the in-memory store, a drifted single object is replaced in place. -/
theorem memEnsure_drift (D : Deps) (ch : Challenge) (svcName : String) (m : MemState)
    (hwf : m.WF) (u : Unstructured) (hp : HTTPProxy)
    (hlist : memStore.list m ch.ObjectMeta.Namespace (D.podLabels ch) = .ok [u])
    (hdec : HTTPProxyFromUnstructured u = .ok hp)
    (hspec : hp.Spec ≠ createHTTPProxySpec D ch svcName) :
    ((memSolver D).ensureHTTPProxy m ch svcName).result =
      .ok ({ hp with Spec := createHTTPProxySpec D ch svcName } : HTTPProxy).stamped ∧
    ((memSolver D).ensureHTTPProxy m ch svcName).calls =
      [Call.update HTTPProxyGvr ch.ObjectMeta.Namespace
        ({ hp with Spec := createHTTPProxySpec D ch svcName } : HTTPProxy).encoded] ∧
    memStore.list ((memSolver D).ensureHTTPProxy m ch svcName).state
      ch.ObjectMeta.Namespace (D.podLabels ch) =
      .ok [({ hp with Spec := createHTTPProxySpec D ch svcName } : HTTPProxy).encoded] := by
  have he := ensure_of_get_some (memSolver D) m ch svcName hp
    (getHTTPProxy_single (memSolver D) m ch u hp hlist hdec)
  obtain ⟨hc, hs, hr⟩ := checkAndUpdate_drift (memSolver D) m ch svcName hp hspec
  have hfilter := (memList_eq _ _ _ _).mp hlist
  obtain ⟨humem, hul⟩ := mem_of_filter_eq_cons _ _ _ _ hfilter
  obtain ⟨ha1, ha2, ha3, _⟩ := accessors_of_decode u hp hdec
  obtain ⟨hb1, hb2, hb3, _⟩ :=
    encoded_accessors ({ hp with Spec := createHTTPProxySpec D ch svcName } : HTTPProxy)
  have huns := listed_namespace _ _ _ hul
  have hns : ({ hp with Spec := createHTTPProxySpec D ch svcName } : HTTPProxy).encoded.GetNamespace
      = ch.ObjectMeta.Namespace := by rw [hb2, ← ha2, huns]
  have hname : ({ hp with Spec := createHTTPProxySpec D ch svcName } : HTTPProxy).encoded.GetName
      = u.GetName := by rw [hb1, ← ha1]
  have hhas : m.has ch.ObjectMeta.Namespace u.GetName = true := by
    have := has_of_mem m u humem
    rwa [huns] at this
  have hupd : memUpdate m HTTPProxyGvr ch.ObjectMeta.Namespace
      ({ hp with Spec := createHTTPProxySpec D ch svcName } : HTTPProxy).encoded =
      (.ok ({ hp with Spec := createHTTPProxySpec D ch svcName } : HTTPProxy).encoded,
       { m with objects := m.objects.map fun o =>
          if objectKey o = (ch.ObjectMeta.Namespace, u.GetName) then
            ({ hp with Spec := createHTTPProxySpec D ch svcName } : HTTPProxy).encoded else o }) := by
    unfold memUpdate
    rw [if_neg (by simpa using hns), hname, if_pos hhas]
  have hupd' : (memSolver D).store.update m HTTPProxyGvr ch.ObjectMeta.Namespace
      ({ hp with Spec := createHTTPProxySpec (memSolver D).deps ch svcName } : HTTPProxy).encoded =
      (.ok ({ hp with Spec := createHTTPProxySpec D ch svcName } : HTTPProxy).encoded,
       { m with objects := m.objects.map fun o =>
          if objectKey o = (ch.ObjectMeta.Namespace, u.GetName) then
            ({ hp with Spec := createHTTPProxySpec D ch svcName } : HTTPProxy).encoded else o }) :=
    hupd
  rw [he, hc, hs, hr, hupd']
  refine ⟨encoded_decode _, rfl, ?_⟩
  have hlv : listed ch.ObjectMeta.Namespace (D.podLabels ch)
      ({ hp with Spec := createHTTPProxySpec D ch svcName } : HTTPProxy).encoded = true :=
    listed_of_same _ _ u _ hul (by rw [hns, huns]) (by rw [hb3, ← ha3])
  have hall : ∀ o ∈ m.objects, objectKey o = (ch.ObjectMeta.Namespace, u.GetName) →
      listed ch.ObjectMeta.Namespace (D.podLabels ch) o = true := by
    intro o ho hk
    have : o = u := eq_of_key_eq objectKey m.objects hwf o u ho humem
      (by rw [hk]; simp [objectKey, huns])
    rw [this]; exact hul
  show memList _ _ _ = _
  simp only [memList]
  rw [filter_map_replace objectKey _ m.objects _ _ hlv hall, hfilter]
  simp [objectKey, huns]

theorem ensure_noop_eq {σ : Type} (s : Solver σ) (st : σ) (ch : Challenge)
    (svcName : String) (hp : Unstructured) (httpProxy : HTTPProxy)
    (hlist : s.store.list st ch.ObjectMeta.Namespace (s.deps.podLabels ch) = .ok [hp])
    (hdec : HTTPProxyFromUnstructured hp = .ok httpProxy)
    (hspec : httpProxy.Spec = createHTTPProxySpec s.deps ch svcName) :
    s.ensureHTTPProxy st ch svcName = ⟨.ok httpProxy, st, []⟩ := by
  simp [Solver.ensureHTTPProxy, getHTTPProxy_single s st ch hp httpProxy hlist hdec,
    Solver.checkAndUpdateHTTPProxy, hspec]

theorem getHTTPProxy_single_error {σ : Type} (s : Solver σ) (st : σ) (ch : Challenge)
    (hp : Unstructured) (err : Err)
    (hlist : s.store.list st ch.ObjectMeta.Namespace (s.deps.podLabels ch) = .ok [hp])
    (hdec : HTTPProxyFromUnstructured hp = .error err) :
    (s.getHTTPProxy st ch).result = .error err := by
  simp [Solver.getHTTPProxy, hlist, hdec]

theorem getHTTPProxy_many_result {σ : Type} (s : Solver σ) (st : σ) (ch : Challenge)
    (first : Unstructured) (rest : List Unstructured)
    (hlist : s.store.list st ch.ObjectMeta.Namespace (s.deps.podLabels ch) = .ok (first :: rest))
    (hn : rest ≠ []) :
    ∃ err, (s.getHTTPProxy st ch).result = .error err := by
  rw [getHTTPProxy_many s st ch first rest hlist hn]
  cases (deleteHTTPProxies s ch.ObjectMeta.Namespace st rest).1 with
  | none => exact ⟨_, rfl⟩
  | some e => exact ⟨_, rfl⟩

/-- C4: on the in-memory store with no two objects under one key, when a call of
`ensureHTTPProxy` succeeds, a second call on the state it left issues no write, leaves
the state as it is and returns the same object. -/
theorem ensureHTTPProxy_idempotent (D : Deps) (ch : Challenge) (svcName : String)
    (m : MemState) (hwf : m.WF) (r : HTTPProxy)
    (hfirst : ((memSolver D).ensureHTTPProxy m ch svcName).result = .ok r) :
    ((memSolver D).ensureHTTPProxy ((memSolver D).ensureHTTPProxy m ch svcName).state
      ch svcName).calls = [] ∧
    ((memSolver D).ensureHTTPProxy ((memSolver D).ensureHTTPProxy m ch svcName).state
      ch svcName).result = .ok r ∧
    ((memSolver D).ensureHTTPProxy ((memSolver D).ensureHTTPProxy m ch svcName).state
      ch svcName).state = ((memSolver D).ensureHTTPProxy m ch svcName).state := by
  rcases hf : m.objects.filter (listed ch.ObjectMeta.Namespace (D.podLabels ch)) with
    _ | ⟨u, _ | ⟨u2, rest⟩⟩
  · have hlist := (memList_eq m ch.ObjectMeta.Namespace (D.podLabels ch) _).mpr hf
    obtain ⟨_, h2, h3, h4⟩ := memEnsure_absent D ch svcName m hlist r hfirst
    have hspec : r.Spec = createHTTPProxySpec D ch svcName := by rw [h4]; rfl
    rw [ensure_noop_eq (memSolver D) _ ch svcName _ r h2 h3 hspec]
    exact ⟨rfl, rfl, rfl⟩
  · have hlist := (memList_eq m ch.ObjectMeta.Namespace (D.podLabels ch) _).mpr hf
    cases hd : HTTPProxyFromUnstructured u with
    | error e =>
      have hg := getHTTPProxy_single_error (memSolver D) m ch u e hlist hd
      have := (ensure_of_get_error (memSolver D) m ch svcName e hg).1
      rw [this] at hfirst
      cases hfirst
    | ok hp =>
      by_cases hspec : hp.Spec = createHTTPProxySpec D ch svcName
      · have he := ensure_noop_eq (memSolver D) m ch svcName u hp hlist hd hspec
        rw [he] at hfirst ⊢
        simp only at hfirst ⊢
        rw [he]
        exact ⟨rfl, hfirst, rfl⟩
      · obtain ⟨hr, _, hl⟩ := memEnsure_drift D ch svcName m hwf u hp hlist hd hspec
        rw [hr] at hfirst
        injection hfirst with hfirst
        have hspec' : r.Spec = createHTTPProxySpec D ch svcName := by rw [← hfirst]; rfl
        have hdec' := encoded_decode ({ hp with Spec := createHTTPProxySpec D ch svcName })
        rw [hfirst] at hdec'
        rw [ensure_noop_eq (memSolver D) _ ch svcName _ r hl hdec' hspec']
        exact ⟨rfl, rfl, rfl⟩
  · have hlist := (memList_eq m ch.ObjectMeta.Namespace (D.podLabels ch) _).mpr hf
    obtain ⟨e, hg⟩ := getHTTPProxy_many_result (memSolver D) m ch u (u2 :: rest) hlist
      (List.cons_ne_nil _ _)
    have := (ensure_of_get_error (memSolver D) m ch svcName e hg).1
    rw [this] at hfirst
    cases hfirst

theorem memDelete_ok (m m' : MemState) (gvr : GroupVersionResource) (ns name : String)
    (h : memDelete m gvr ns name = (none, m')) :
    m'.objects = m.objects.filter fun o => objectKey o != (ns, name) := by
  unfold memDelete at h
  by_cases hu : name ∈ m.undeletable
  · rw [if_pos hu] at h; cases h
  · rw [if_neg hu] at h
    by_cases hhas : m.has ns name = true
    · rw [if_pos hhas] at h
      injection h with _ h2
      rw [← h2]
    · rw [if_neg hhas] at h; cases h

theorem stateAfterDeletes_objects (D : Deps) (ns : String) (m : MemState)
    (l : List Unstructured) (h : deletesSucceed (memSolver D) ns m l = true) :
    (stateAfterDeletes (memSolver D) ns m l).objects =
      m.objects.filter fun o => l.all fun hp => objectKey o != (ns, hp.GetName) := by
  induction l generalizing m with
  | nil => simp [stateAfterDeletes]
  | cons hp rest ih =>
    simp only [deletesSucceed] at h
    simp only [stateAfterDeletes]
    rcases hd : (memSolver D).store.delete m HTTPProxyGvr ns hp.GetName with ⟨r, m'⟩
    rw [hd] at h
    cases r with
    | some e => simp at h
    | none =>
      simp only at h
      have hobj := memDelete_ok m m' HTTPProxyGvr ns hp.GetName hd
      rw [ih m' h, hobj, List.filter_filter]
      congr 1
      funext o
      simp [Bool.and_comm]

theorem wf_filter (m : MemState) (q : Unstructured → Bool) (hwf : m.WF) :
    ((m.objects.filter q).map objectKey).Nodup :=
  List.Nodup.sublist ((List.filter_sublist m.objects).map objectKey) hwf

theorem filter_survivor (ns : String) (sel : List (String × String)) (l : List Unstructured)
    (first : Unstructured) (rest : List Unstructured)
    (hnodup : (l.map objectKey).Nodup)
    (hf : l.filter (listed ns sel) = first :: rest) :
    (l.filter fun o => rest.all fun hp => objectKey o != (ns, hp.GetName)).filter
      (listed ns sel) = [first] := by
  have hkey : ∀ hp ∈ rest, objectKey hp = (ns, hp.GetName) := by
    intro hp hmem
    have : hp ∈ l.filter (listed ns sel) := by rw [hf]; exact List.mem_cons_of_mem _ hmem
    have hl := (List.mem_filter.mp this).2
    simp [objectKey, listed_namespace ns sel hp hl]
  have hnd : ((first :: rest).map objectKey).Nodup := by
    rw [← hf]
    exact List.Nodup.sublist ((List.filter_sublist l).map objectKey) hnodup
  rw [List.filter_filter]
  have hcomm : (l.filter fun a => listed ns sel a &&
      rest.all fun hp => objectKey a != (ns, hp.GetName)) =
      (l.filter (listed ns sel)).filter fun o =>
        rest.all fun hp => objectKey o != (ns, hp.GetName) := by
    rw [List.filter_filter]
    congr 1
    funext o
    simp [Bool.and_comm]
  rw [hcomm, hf]
  simp only [List.map_cons, List.nodup_cons] at hnd
  have hq1 : (rest.all fun hp => objectKey first != (ns, hp.GetName)) = true := by
    rw [List.all_eq_true]
    intro hp hmem
    have hne : objectKey first ≠ objectKey hp := by
      intro heq
      exact hnd.1 (heq ▸ List.mem_map_of_mem objectKey hmem)
    rw [hkey hp hmem] at hne
    simpa using hne
  have hq2 : rest.filter (fun o => rest.all fun hp => objectKey o != (ns, hp.GetName)) = [] := by
    rw [List.filter_eq_nil_iff]
    intro x hx
    simp only [List.all_eq_true, not_forall]
    refine ⟨x, hx, ?_⟩
    simp [hkey x hx]
  rw [List.filter_cons, if_pos hq1, hq2]

/-- C10 (amended): on the in-memory store with no two objects under one key, when the
lister returns more than one object for the challenge, the first of them decodes, and a
first call of `ensureHTTPProxy` returns the multiple-found error, the store then lists
exactly the former first object for the challenge.  A second call succeeds; the store
then lists exactly one object for the challenge, under the name of the former first
one, and that stored object decodes to the returned object, whose spec is the desired
spec.  The second call issues no write and leaves the stored object as it is when its
spec was the desired one already, and issues exactly one `Update`, with the located
object carrying the desired spec, which the store then holds, otherwise. -/
theorem ensureHTTPProxy_converges_after_ambiguity (D : Deps) (ch : Challenge)
    (svcName : String) (m : MemState) (hwf : m.WF) (first : Unstructured)
    (rest : List Unstructured) (hp : HTTPProxy)
    (hlist : memStore.list m ch.ObjectMeta.Namespace (D.podLabels ch) = .ok (first :: rest))
    (hn : rest ≠ [])
    (hdec : HTTPProxyFromUnstructured first = .ok hp)
    (hfirst : ((memSolver D).ensureHTTPProxy m ch svcName).result = .error .multipleFound) :
    memStore.list ((memSolver D).ensureHTTPProxy m ch svcName).state
      ch.ObjectMeta.Namespace (D.podLabels ch) = .ok [first] ∧
    (∃ r val,
      ((memSolver D).ensureHTTPProxy ((memSolver D).ensureHTTPProxy m ch svcName).state
        ch svcName).result = .ok r ∧
      r.Spec = createHTTPProxySpec D ch svcName ∧
      memStore.list
        ((memSolver D).ensureHTTPProxy ((memSolver D).ensureHTTPProxy m ch svcName).state
          ch svcName).state ch.ObjectMeta.Namespace (D.podLabels ch) = .ok [val] ∧
      HTTPProxyFromUnstructured val = .ok r ∧
      val.GetName = first.GetName) ∧
    ((memSolver D).ensureHTTPProxy ((memSolver D).ensureHTTPProxy m ch svcName).state
        ch svcName).result ≠ .error .multipleFound ∧
    (hp.Spec = createHTTPProxySpec D ch svcName →
      ((memSolver D).ensureHTTPProxy ((memSolver D).ensureHTTPProxy m ch svcName).state
        ch svcName).calls = [] ∧
      memStore.list
        ((memSolver D).ensureHTTPProxy ((memSolver D).ensureHTTPProxy m ch svcName).state
          ch svcName).state ch.ObjectMeta.Namespace (D.podLabels ch) = .ok [first]) ∧
    (hp.Spec ≠ createHTTPProxySpec D ch svcName →
      ((memSolver D).ensureHTTPProxy ((memSolver D).ensureHTTPProxy m ch svcName).state
        ch svcName).calls =
        [Call.update HTTPProxyGvr ch.ObjectMeta.Namespace
          ({ hp with Spec := createHTTPProxySpec D ch svcName } : HTTPProxy).encoded] ∧
      memStore.list
        ((memSolver D).ensureHTTPProxy ((memSolver D).ensureHTTPProxy m ch svcName).state
          ch svcName).state ch.ObjectMeta.Namespace (D.podLabels ch) =
        .ok [({ hp with Spec := createHTTPProxySpec D ch svcName } : HTTPProxy).encoded]) := by
  have hf := (memList_eq _ _ _ _).mp hlist
  have hg := getHTTPProxy_many (memSolver D) m ch first rest hlist hn
  have hds : deletesSucceed (memSolver D) ch.ObjectMeta.Namespace m rest = true := by
    cases hds : deletesSucceed (memSolver D) ch.ObjectMeta.Namespace m rest with
    | true => rfl
    | false =>
      obtain ⟨pre, x, post, e, hl, hpre, hfail⟩ := deletesSucceed_false _ _ m rest hds
      rw [hl, deleteHTTPProxies_fail _ _ m pre post x e hpre hfail] at hg
      have hres : ((memSolver D).getHTTPProxy m ch).result = .error (.store e) := by rw [hg]
      rw [(ensure_of_get_error _ m ch svcName _ hres).1] at hfirst
      cases hfirst
  rw [deleteHTTPProxies_succeed _ _ m rest hds] at hg
  have hres : ((memSolver D).getHTTPProxy m ch).result = .error .multipleFound := by rw [hg]
  have hstate : ((memSolver D).ensureHTTPProxy m ch svcName).state =
      stateAfterDeletes (memSolver D) ch.ObjectMeta.Namespace m rest := by
    rw [(ensure_of_get_error _ m ch svcName _ hres).2.2, hg]
  have hobjs := stateAfterDeletes_objects D ch.ObjectMeta.Namespace m rest hds
  have hlist1 : memStore.list (stateAfterDeletes (memSolver D) ch.ObjectMeta.Namespace m rest)
      ch.ObjectMeta.Namespace (D.podLabels ch) = .ok [first] := by
    rw [memList_eq, hobjs]
    exact filter_survivor _ _ m.objects first rest hwf hf
  have hwf1 : (stateAfterDeletes (memSolver D) ch.ObjectMeta.Namespace m rest).WF := by
    rw [MemState.WF, hobjs]
    exact wf_filter m _ hwf
  rw [hstate]
  refine ⟨hlist1, ?_⟩
  by_cases hspec : hp.Spec = createHTTPProxySpec D ch svcName
  · rw [ensure_noop_eq (memSolver D) _ ch svcName first hp hlist1 hdec hspec]
    refine ⟨⟨hp, first, rfl, hspec, hlist1, hdec, rfl⟩, ?_, fun _ => ⟨rfl, hlist1⟩,
      fun hne => absurd hspec hne⟩
    intro h
    cases h
  · obtain ⟨hr, hc, hl⟩ := memEnsure_drift D ch svcName _ hwf1 first hp hlist1 hdec hspec
    have hname : ({ hp with Spec := createHTTPProxySpec D ch svcName } : HTTPProxy).encoded.GetName
        = first.GetName := by
      rw [(encoded_accessors _).1, (accessors_of_decode first hp hdec).1]
    refine ⟨⟨_, _, hr, rfl, hl, encoded_decode _, hname⟩, ?_, fun heq => absurd heq hspec,
      fun _ => ⟨hc, hl⟩⟩
    rw [hr]
    intro h
    cases h

/-! ## Decoding with and without nil told apart -/

theorem traverse_refines {γ α β : Type} (f : γ → Except Err α) (g : γ → Except Err β)
    (φ : β → α) (h : ∀ v a, f v = .ok a → ∃ b, g v = .ok b ∧ φ b = a)
    (xs : List γ) (l : List α) (hl : traverse f xs = .ok l) :
    ∃ l', traverse g xs = .ok l' ∧ l'.map φ = l := by
  induction xs generalizing l with
  | nil =>
    simp only [traverse] at hl
    injection hl with hl
    exact ⟨[], rfl, by simp [← hl]⟩
  | cons v vs ih =>
    simp only [traverse] at hl
    cases hv : f v with
    | error e => rw [hv] at hl; cases hl
    | ok a =>
      rw [hv] at hl
      cases hvs : traverse f vs with
      | error e => rw [hvs] at hl; cases hl
      | ok as =>
        rw [hvs] at hl
        injection hl with hl
        obtain ⟨b, hb, hφ⟩ := h v a hv
        obtain ⟨bs, hbs, hφs⟩ := ih as hvs
        exact ⟨b :: bs, by simp [traverse, hb, hbs], by simp [← hl, hφ, hφs]⟩

theorem decColl_refines {α β : Type} (f : Value → Except Err α) (g : Value → Except Err β)
    (φ : β → α) (h : ∀ v a, f v = .ok a → ∃ b, g v = .ok b ∧ φ b = a)
    (ov : Option Value) (l : List α) (hl : decList f ov = .ok l) :
    ∃ c, decColl g ov = .ok c ∧ c.elems.map φ = l := by
  rcases ov with _ | v
  · simp only [decList] at hl
    injection hl with hl
    exact ⟨.nil, rfl, by simp [Coll.elems, ← hl]⟩
  · cases v with
    | null =>
      simp only [decList] at hl
      injection hl with hl
      exact ⟨.nil, rfl, by simp [Coll.elems, ← hl]⟩
    | arr xs =>
      simp only [decList] at hl
      obtain ⟨l', hl', hφ⟩ := traverse_refines f g φ h xs l hl
      exact ⟨.mk l', by simp [decColl, hl'], hφ⟩
    | _ => simp [decList] at hl

theorem decMapColl_refines (ov : Option Value) (l : List (String × String))
    (hl : decMap ov = .ok l) : ∃ c, decMapColl ov = .ok c ∧ c.elems = l := by
  have hentry : ∀ (kv : String × Value) (a : String × String), decEntry kv = .ok a →
      ∃ b, decEntryOrNull kv = .ok b ∧ (fun x => x) b = a := by
    intro kv a ha
    obtain ⟨k, v⟩ := kv
    cases v <;> simp_all [decEntry, decEntryOrNull]
  rcases ov with _ | v
  · simp only [decMap] at hl
    injection hl with hl
    exact ⟨.nil, rfl, by simp [Coll.elems, ← hl]⟩
  · cases v with
    | null =>
      simp only [decMap] at hl
      injection hl with hl
      exact ⟨.nil, rfl, by simp [Coll.elems, ← hl]⟩
    | obj kvs =>
      simp only [decMap] at hl
      obtain ⟨l', hl', hφ⟩ := traverse_refines decEntry decEntryOrNull (fun x => x) hentry kvs l hl
      exact ⟨.mk l', by simp [decMapColl, hl'], by simpa [Coll.elems] using hφ⟩
    | _ => simp [decMap] at hl

theorem decElem_of_decObj {α : Type} (f : List (String × Value) → Except Err α) (v : Value)
    (a : α) (h : decObj f v = .ok a) : ∃ b, decElem f v = .ok b ∧ (fun x => x) b = a := by
  cases v <;> first | exact ⟨a, h, rfl⟩ | simp [decObj] at h

theorem decObjectMetaFields_refines (m : List (String × Value)) (om : ObjectMeta)
    (h : decObjectMetaFields m = .ok om) :
    ∃ om', Exact.decObjectMetaFields m = .ok om' ∧ om'.forget = om := by
  simp only [decObjectMetaFields, bind, Except.bind, pure, Except.pure] at h
  cases h1 : decStr (m.lookup "name") with
  | error e => simp [h1] at h
  | ok n =>
  cases h2 : decStr (m.lookup "generateName") with
  | error e => simp [h1, h2] at h
  | ok g =>
  cases h3 : decStr (m.lookup "namespace") with
  | error e => simp [h1, h2, h3] at h
  | ok ns =>
  cases h4 : decStr (m.lookup "uid") with
  | error e => simp [h1, h2, h3, h4] at h
  | ok u =>
  cases h5 : decStr (m.lookup "resourceVersion") with
  | error e => simp [h1, h2, h3, h4, h5] at h
  | ok rv =>
  cases h6 : decMap (m.lookup "labels") with
  | error e => simp [h1, h2, h3, h4, h5, h6] at h
  | ok l =>
  cases h7 : decMap (m.lookup "annotations") with
  | error e => simp [h1, h2, h3, h4, h5, h6, h7] at h
  | ok an =>
  cases h8 : decList (decObj decOwnerReferenceFields) (m.lookup "ownerReferences") with
  | error e => simp [h1, h2, h3, h4, h5, h6, h7, h8] at h
  | ok o =>
  simp only [h1, h2, h3, h4, h5, h6, h7, h8] at h
  injection h with h
  obtain ⟨cl, hcl, hel⟩ := decMapColl_refines _ _ h6
  obtain ⟨ca, hca, hea⟩ := decMapColl_refines _ _ h7
  obtain ⟨co, hco, heo⟩ := decColl_refines (decObj decOwnerReferenceFields)
    (decElem decOwnerReferenceFields) (fun x => x) (decElem_of_decObj _) _ _ h8
  refine ⟨{ Name := n, GenerateName := g, Namespace := ns, UID := u, ResourceVersion := rv,
            Labels := cl, Annotations := ca, OwnerReferences := co }, ?_, ?_⟩
  · simp [Exact.decObjectMetaFields, bind, Except.bind, pure, Except.pure, h1, h2, h3, h4, h5,
      hcl, hca, hco]
  · rw [← h]
    simp only [List.map_id'] at heo
    simp [Exact.ObjectMeta.forget, hel, hea, heo]

theorem decRouteFields_refines (m : List (String × Value)) (r : Route)
    (h : decRouteFields m = .ok r) :
    ∃ r', Exact.decRouteFields m = .ok r' ∧ r'.forget = r := by
  simp only [decRouteFields, bind, Except.bind, pure, Except.pure] at h
  cases h1 : decList (decObj decMatchConditionFields) (m.lookup "conditions") with
  | error e => simp [h1] at h
  | ok c =>
  cases h2 : decList (decObj decServiceFields) (m.lookup "services") with
  | error e => simp [h1, h2] at h
  | ok sv =>
  cases h3 : decBool (m.lookup "enableWebsockets") with
  | error e => simp [h1, h2, h3] at h
  | ok w =>
  cases h4 : decBool (m.lookup "permitInsecure") with
  | error e => simp [h1, h2, h3, h4] at h
  | ok pi =>
  simp only [h1, h2, h3, h4] at h
  injection h with h
  obtain ⟨cc, hcc, hec⟩ := decColl_refines (decObj decMatchConditionFields)
    (decElem decMatchConditionFields) (fun x => x) (decElem_of_decObj _) _ _ h1
  obtain ⟨cs, hcs, hes⟩ := decColl_refines (decObj decServiceFields)
    (decElem decServiceFields) (fun x => x) (decElem_of_decObj _) _ _ h2
  refine ⟨{ Conditions := cc, Services := cs, EnableWebsockets := w, PermitInsecure := pi },
    ?_, ?_⟩
  · simp [Exact.decRouteFields, bind, Except.bind, pure, Except.pure, hcc, hcs, h3, h4]
  · rw [← h]
    simp only [List.map_id'] at hec hes
    simp [Exact.Route.forget, hec, hes]

theorem decRouteElem_refines (v : Value) (r : Route) (h : decObj decRouteFields v = .ok r) :
    ∃ r', decElem Exact.decRouteFields v = .ok r' ∧ Exact.Route.forget r' = r := by
  cases v with
  | obj kvs => exact decRouteFields_refines kvs r h
  | _ => simp [decObj] at h

theorem decHTTPProxySpecFields_refines (m : List (String × Value)) (sp : HTTPProxySpec)
    (h : decHTTPProxySpecFields m = .ok sp) :
    ∃ sp', Exact.decHTTPProxySpecFields m = .ok sp' ∧ sp'.forget = sp := by
  simp only [decHTTPProxySpecFields, bind, Except.bind, pure, Except.pure] at h
  cases h1 : decPtr (decObj decVirtualHostFields) (m.lookup "virtualhost") with
  | error e => simp [h1] at h
  | ok vh =>
  cases h2 : decList (decObj decRouteFields) (m.lookup "routes") with
  | error e => simp [h1, h2] at h
  | ok rs =>
  cases h3 : decStr (m.lookup "ingressClassName") with
  | error e => simp [h1, h2, h3] at h
  | ok ic =>
  simp only [h1, h2, h3] at h
  injection h with h
  obtain ⟨cr, hcr, her⟩ := decColl_refines (decObj decRouteFields)
    (decElem Exact.decRouteFields) Exact.Route.forget decRouteElem_refines _ _ h2
  refine ⟨{ VirtualHost := vh, Routes := cr, IngressClassName := ic }, ?_, ?_⟩
  · simp [Exact.decHTTPProxySpecFields, bind, Except.bind, pure, Except.pure, h1, hcr, h3]
  · rw [← h]
    simp [Exact.HTTPProxySpec.forget, her]

theorem decStruct_refines {α β : Type} (f : List (String × Value) → Except Err α)
    (g : List (String × Value) → Except Err β) (φ : β → α)
    (h : ∀ m a, f m = .ok a → ∃ b, g m = .ok b ∧ φ b = a)
    (ov : Option Value) (a : α) (ha : decStruct f ov = .ok a) :
    ∃ b, decStruct g ov = .ok b ∧ φ b = a := by
  rcases ov with _ | v
  · exact h [] a ha
  · cases v with
    | null => exact h [] a ha
    | obj kvs => exact h kvs a ha
    | _ => simp [decStruct] at ha

/-- Whatever `HTTPProxyFromUnstructured` decodes with nil and empty identified, it
decodes with them told apart, to an object with the same content. -/
theorem exact_decode_refines (u : Unstructured) (hp : HTTPProxy)
    (h : HTTPProxyFromUnstructured u = .ok hp) :
    ∃ hp', Exact.HTTPProxyFromUnstructured u = .ok hp' ∧ hp'.forget = hp := by
  obtain ⟨h1, h2, h3, h4, h5⟩ := fromUnstructured_ok _ _ (fromUnstructured_of_decode u hp h)
  obtain ⟨om, hom, hfo⟩ := decStruct_refines decObjectMetaFields Exact.decObjectMetaFields
    Exact.ObjectMeta.forget decObjectMetaFields_refines _ _ h3
  obtain ⟨sp, hsp, hfs⟩ := decStruct_refines decHTTPProxySpecFields Exact.decHTTPProxySpecFields
    Exact.HTTPProxySpec.forget decHTTPProxySpecFields_refines _ _ h4
  refine ⟨{ TypeMeta := hp.TypeMeta, ObjectMeta := om, Spec := sp, Status := hp.Status }, ?_, ?_⟩
  · simp [Exact.HTTPProxyFromUnstructured, Exact.fromUnstructured, bind, Except.bind, pure,
      Except.pure, h1, h2, hom, hsp, h5]
  · simp [Exact.HTTPProxy.forget, hfo, hfs]

/-! ## Worked examples -/

/-- Worked example for C1: one stored object with the desired spec is returned with no write. -/
theorem ensureHTTPProxy_noop_witness :
    memStore.list (storeOne "svc") "ns1" (sampleDeps.podLabels sampleChallenge) =
      .ok [sampleProxy "p1" "svc"] ∧
    HTTPProxyFromUnstructured (sampleProxy "p1" "svc") = .ok (sampleDecoded "p1" "svc") ∧
    (sampleDecoded "p1" "svc").Spec = createHTTPProxySpec sampleDeps sampleChallenge "svc" ∧
    ((memSolver sampleDeps).ensureHTTPProxy (storeOne "svc") sampleChallenge "svc").calls = [] ∧
    ((memSolver sampleDeps).ensureHTTPProxy (storeOne "svc") sampleChallenge "svc").result =
      .ok (sampleDecoded "p1" "svc") :=
  have h := ensureHTTPProxy_noop (memSolver sampleDeps) (storeOne "svc") sampleChallenge "svc"
    (sampleProxy "p1" "svc") (sampleDecoded "p1" "svc") rfl rfl rfl
  ⟨rfl, rfl, rfl, h.1, h.2.1⟩

/-- Worked example for C2: a stored object routing to `svc-a` is updated to route to `svc-b`. -/
theorem ensureHTTPProxy_update_witness :
    memStore.list (storeOne "svc-a") "ns1" (sampleDeps.podLabels sampleChallenge) =
      .ok [sampleProxy "p1" "svc-a"] ∧
    HTTPProxyFromUnstructured (sampleProxy "p1" "svc-a") = .ok (sampleDecoded "p1" "svc-a") ∧
    (sampleDecoded "p1" "svc-a").Spec ≠ createHTTPProxySpec sampleDeps sampleChallenge "svc-b" ∧
    ((memSolver sampleDeps).ensureHTTPProxy (storeOne "svc-a") sampleChallenge "svc-b").calls =
      [Call.update HTTPProxyGvr "ns1" (sampleProxy "p1" "svc-b")] ∧
    ((memSolver sampleDeps).ensureHTTPProxy (storeOne "svc-a") sampleChallenge "svc-b").result =
      .ok (sampleDecoded "p1" "svc-b") := by
  have hne : (sampleDecoded "p1" "svc-a").Spec ≠ createHTTPProxySpec sampleDeps sampleChallenge "svc-b" := by
    decide
  obtain ⟨unstr, submitted, h1, h2, h3, h4, h5, h6, h7, h8⟩ :=
    ensureHTTPProxy_update (memSolver sampleDeps) (storeOne "svc-a") sampleChallenge "svc-b"
      (sampleProxy "p1" "svc-a") (sampleDecoded "p1" "svc-a") rfl rfl hne
  exact ⟨rfl, rfl, hne, rfl, rfl⟩

/-- Worked example for C5: of four stored objects the last three are deleted. -/
theorem getHTTPProxy_deletes_duplicates_witness :
    memStore.list storeMany "ns1" (sampleDeps.podLabels sampleChallenge) =
      .ok (sampleProxy "p1" "svc" ::
        [sampleProxy "p2" "svc", sampleProxy "p3" "svc", sampleProxy "p4" "svc"]) ∧
    deletesSucceed (memSolver sampleDeps) "ns1" storeMany
      [sampleProxy "p2" "svc", sampleProxy "p3" "svc", sampleProxy "p4" "svc"] = true ∧
    ((memSolver sampleDeps).getHTTPProxy storeMany sampleChallenge).calls =
      [Call.delete HTTPProxyGvr "ns1" "p2", Call.delete HTTPProxyGvr "ns1" "p3",
       Call.delete HTTPProxyGvr "ns1" "p4"] ∧
    ((memSolver sampleDeps).ensureHTTPProxy storeMany sampleChallenge "svc").result =
      .error .multipleFound :=
  have h := getHTTPProxy_deletes_duplicates (memSolver sampleDeps) storeMany sampleChallenge "svc"
    (sampleProxy "p1" "svc")
    [sampleProxy "p2" "svc", sampleProxy "p3" "svc", sampleProxy "p4" "svc"] rfl
    (List.cons_ne_nil _ _) rfl
  ⟨rfl, rfl, h.1, h.2.2.2.2.1⟩

/-- C6 fails as stated: with four objects listed and the deletion of `p3` refused,
`getHTTPProxy` returns the store's error, not the multiple-found error. -/
theorem getHTTPProxy_store_error_not_multiple :
    memStore.list storeLocked "ns1" (sampleDeps.podLabels sampleChallenge) =
      .ok [sampleProxy "p1" "svc", sampleProxy "p2" "svc", sampleProxy "p3" "svc",
        sampleProxy "p4" "svc"] ∧
    ((memSolver sampleDeps).getHTTPProxy storeLocked sampleChallenge).result =
      .error (.store "forbidden") ∧
    ((memSolver sampleDeps).getHTTPProxy storeLocked sampleChallenge).result ≠
      .error .multipleFound := by
  refine ⟨rfl, rfl, ?_⟩
  intro h
  have h2 : ((memSolver sampleDeps).getHTTPProxy storeLocked sampleChallenge).result =
      .error (.store "forbidden") := rfl
  rw [h2] at h
  cases h

/-- Worked example for C6 (amended): four objects listed, an error returned. -/
theorem getHTTPProxy_many_errors_witness :
    memStore.list storeLocked "ns1" (sampleDeps.podLabels sampleChallenge) =
      .ok (sampleProxy "p1" "svc" ::
        [sampleProxy "p2" "svc", sampleProxy "p3" "svc", sampleProxy "p4" "svc"]) ∧
    ∃ err, ((memSolver sampleDeps).getHTTPProxy storeLocked sampleChallenge).result = .error err :=
  ⟨rfl, (getHTTPProxy_many_errors (memSolver sampleDeps) storeLocked sampleChallenge
    (sampleProxy "p1" "svc")
    [sampleProxy "p2" "svc", sampleProxy "p3" "svc", sampleProxy "p4" "svc"] rfl
    (List.cons_ne_nil _ _)).1⟩

/-- Worked example for C7: the deletion of `p3` is refused after `p2` was deleted; `p4` is
not touched and the store still lists `p1`, `p3` and `p4`. -/
theorem getHTTPProxy_delete_failure_witness :
    memStore.list storeLocked "ns1" (sampleDeps.podLabels sampleChallenge) =
      .ok (sampleProxy "p1" "svc" ::
        ([sampleProxy "p2" "svc"] ++ sampleProxy "p3" "svc" :: [sampleProxy "p4" "svc"])) ∧
    deletesSucceed (memSolver sampleDeps) "ns1" storeLocked [sampleProxy "p2" "svc"] = true ∧
    (memStore.delete (stateAfterDeletes (memSolver sampleDeps) "ns1" storeLocked
      [sampleProxy "p2" "svc"]) HTTPProxyGvr "ns1" (sampleProxy "p3" "svc").GetName).1 =
      some "forbidden" ∧
    ((memSolver sampleDeps).ensureHTTPProxy storeLocked sampleChallenge "svc").result =
      .error (.store "forbidden") ∧
    ((memSolver sampleDeps).ensureHTTPProxy storeLocked sampleChallenge "svc").calls =
      [Call.delete HTTPProxyGvr "ns1" "p2", Call.delete HTTPProxyGvr "ns1" "p3"] ∧
    memStore.list ((memSolver sampleDeps).ensureHTTPProxy storeLocked sampleChallenge "svc").state
      "ns1" (sampleDeps.podLabels sampleChallenge) =
      .ok [sampleProxy "p1" "svc", sampleProxy "p3" "svc", sampleProxy "p4" "svc"] :=
  have h := getHTTPProxy_delete_failure (memSolver sampleDeps) storeLocked sampleChallenge "svc"
    (sampleProxy "p1" "svc") (sampleProxy "p3" "svc") [sampleProxy "p2" "svc"]
    [sampleProxy "p4" "svc"] "forbidden" rfl rfl rfl
  ⟨rfl, rfl, rfl, h.2.2.2.1, h.2.2.2.2.1, rfl⟩

/-- Worked example for C3: on the empty store the object is created under the name
`cm-acme-http-solver-0`. -/
theorem ensureHTTPProxy_create_witness :
    memStore.list { objects := [] } "ns1" (sampleDeps.podLabels sampleChallenge) = .ok [] ∧
    (∃ unstr created,
      ((memSolver sampleDeps).ensureHTTPProxy { objects := [] } sampleChallenge "svc").calls =
        [Call.create HTTPProxyGvr "ns1" unstr] ∧
      HTTPProxyFromUnstructured unstr = .ok created ∧
      created.ObjectMeta.Labels = sampleDeps.podLabels sampleChallenge ∧
      created.Spec = createHTTPProxySpec sampleDeps sampleChallenge "svc") ∧
    ((memSolver sampleDeps).ensureHTTPProxy { objects := [] } sampleChallenge "svc").result =
      .ok { TypeMeta := { Kind := "HTTPProxy", APIVersion := "projectcontour.io/v1" },
            ObjectMeta :=
              { Name := "cm-acme-http-solver-0",
                GenerateName := "cm-acme-http-solver-",
                Namespace := "ns1",
                Labels := sampleDeps.podLabels sampleChallenge,
                Annotations := [("kubernetes.io/ingress.class", "contour-public")],
                OwnerReferences :=
                  [{ APIVersion := "acme.cert-manager.io/v1", Kind := "Challenge", Name := "ch1",
                     UID := "uid-1", Controller := some true, BlockOwnerDeletion := some true }] },
            Spec := createHTTPProxySpec sampleDeps sampleChallenge "svc" } := by
  obtain ⟨unstr, created, h1, h2, _, _, _, h6, _, h8, _, _⟩ :=
    ensureHTTPProxy_create sampleDeps sampleChallenge "svc" { objects := [] } rfl
  exact ⟨rfl, ⟨unstr, created, h1, h2, h6, h8⟩, rfl⟩

/-- Worked example for C4: after a call that updated the stored object, a second call
issues no write and returns the same object. -/
theorem ensureHTTPProxy_idempotent_witness :
    (storeOne "svc-a").WF ∧
    ((memSolver sampleDeps).ensureHTTPProxy (storeOne "svc-a") sampleChallenge "svc-b").result =
      .ok (sampleDecoded "p1" "svc-b") ∧
    ((memSolver sampleDeps).ensureHTTPProxy
      ((memSolver sampleDeps).ensureHTTPProxy (storeOne "svc-a") sampleChallenge "svc-b").state
      sampleChallenge "svc-b").calls = [] ∧
    ((memSolver sampleDeps).ensureHTTPProxy
      ((memSolver sampleDeps).ensureHTTPProxy (storeOne "svc-a") sampleChallenge "svc-b").state
      sampleChallenge "svc-b").result = .ok (sampleDecoded "p1" "svc-b") :=
  have hwf : (storeOne "svc-a").WF := by
    simp [MemState.WF, storeOne]
  have h := ensureHTTPProxy_idempotent sampleDeps sampleChallenge "svc-b" (storeOne "svc-a")
    hwf (sampleDecoded "p1" "svc-b") rfl
  ⟨hwf, rfl, h.1, h.2.1⟩

/-- The store of four objects holds no two objects under one key. -/
theorem storeMany_wf : storeMany.WF := by
  unfold MemState.WF
  decide

/-- Worked example for C10 (amended): after the duplicates `p2`, `p3`, `p4` are deleted,
a second call finds `p1` alone, updates it to route to `svc-b`, and the store holds
that object alone. -/
theorem ensureHTTPProxy_converges_after_ambiguity_witness :
    storeMany.WF ∧
    memStore.list storeMany "ns1" (sampleDeps.podLabels sampleChallenge) =
      .ok (sampleProxy "p1" "svc" ::
        [sampleProxy "p2" "svc", sampleProxy "p3" "svc", sampleProxy "p4" "svc"]) ∧
    HTTPProxyFromUnstructured (sampleProxy "p1" "svc") = .ok (sampleDecoded "p1" "svc") ∧
    ((memSolver sampleDeps).ensureHTTPProxy storeMany sampleChallenge "svc-b").result =
      .error .multipleFound ∧
    memStore.list ((memSolver sampleDeps).ensureHTTPProxy storeMany sampleChallenge "svc-b").state
      "ns1" (sampleDeps.podLabels sampleChallenge) = .ok [sampleProxy "p1" "svc"] ∧
    ((memSolver sampleDeps).ensureHTTPProxy
        ((memSolver sampleDeps).ensureHTTPProxy storeMany sampleChallenge "svc-b").state
        sampleChallenge "svc-b").calls =
      [Call.update HTTPProxyGvr "ns1" (sampleProxy "p1" "svc-b")] ∧
    memStore.list
      ((memSolver sampleDeps).ensureHTTPProxy
        ((memSolver sampleDeps).ensureHTTPProxy storeMany sampleChallenge "svc-b").state
        sampleChallenge "svc-b").state "ns1" (sampleDeps.podLabels sampleChallenge) =
      .ok [sampleProxy "p1" "svc-b"] :=
  have hne : (sampleDecoded "p1" "svc").Spec ≠
      createHTTPProxySpec sampleDeps sampleChallenge "svc-b" := by decide
  have h := ensureHTTPProxy_converges_after_ambiguity sampleDeps sampleChallenge "svc-b"
    storeMany storeMany_wf (sampleProxy "p1" "svc")
    [sampleProxy "p2" "svc", sampleProxy "p3" "svc", sampleProxy "p4" "svc"]
    (sampleDecoded "p1" "svc") rfl (List.cons_ne_nil _ _) rfl rfl
  ⟨storeMany_wf, rfl, rfl, rfl, h.1, (h.2.2.2.2 hne).1, (h.2.2.2.2 hne).2⟩

/-- C10 fails as stated: the store holds two objects with the challenge's labels, the
first with a spec that is no object.  The first call deletes the second and returns the
multiple-found error; the second call finds the first alone, fails to decode it, issues
no write and returns the conversion error, and so does every later call on that state. -/
theorem ensureHTTPProxy_stuck_on_undecodable_survivor :
    storeMalformed.WF ∧
    memStore.list storeMalformed "ns1" (sampleDeps.podLabels sampleChallenge) =
      .ok [malformedProxy "p1", sampleProxy "p2" "svc"] ∧
    ((memSolver sampleDeps).ensureHTTPProxy storeMalformed sampleChallenge "svc").result =
      .error .multipleFound ∧
    ((memSolver sampleDeps).ensureHTTPProxy storeMalformed sampleChallenge "svc").calls =
      [Call.delete HTTPProxyGvr "ns1" "p2"] ∧
    memStore.list ((memSolver sampleDeps).ensureHTTPProxy storeMalformed sampleChallenge "svc").state
      "ns1" (sampleDeps.podLabels sampleChallenge) = .ok [malformedProxy "p1"] ∧
    ((memSolver sampleDeps).ensureHTTPProxy
        ((memSolver sampleDeps).ensureHTTPProxy storeMalformed sampleChallenge "svc").state
        sampleChallenge "svc").result = .error (.conversion "expected object") ∧
    ((memSolver sampleDeps).ensureHTTPProxy
        ((memSolver sampleDeps).ensureHTTPProxy storeMalformed sampleChallenge "svc").state
        sampleChallenge "svc").calls = [] ∧
    ((memSolver sampleDeps).ensureHTTPProxy
        ((memSolver sampleDeps).ensureHTTPProxy storeMalformed sampleChallenge "svc").state
        sampleChallenge "svc").state =
      ((memSolver sampleDeps).ensureHTTPProxy storeMalformed sampleChallenge "svc").state := by
  refine ⟨?_, rfl, rfl, rfl, rfl, rfl, rfl, rfl⟩
  unfold MemState.WF
  decide

end Contour
